import Mathlib

/-!
# jsonconfig: a two-level configuration store with typed getters

A shallow embedding of `src/jsonconfig.go` (package `jsonconfig`) and of the
functions of the Go standard library package `strconv` that its integer paths
call (`Atoi`, `ParseInt`, `ParseUint`, `Itoa`, `FormatInt`, `FormatUint`,
`FormatBool`), for a 64-bit platform (`int` and `uint` are 64 bits wide), and
of the decoding of a JSON value by `encoding/json` into the field of the store.

* A Go `string` is an immutable sequence of bytes: `GoString`.
* A Go `interface{}` value is a `Value`: the nil interface, or a dynamic type
  together with a value of that type.
* A Go `map[string]interface{}` is `none` (the nil map) or `some kvs`, with
  `kvs` an association list read through `lookup` and written through `assign`.
* A Go run-time panic is the `Except.error` result of an operation.
* The `sync.RWMutex` of `Config` is not part of the sequential model: every
  operation below is one critical section.
-/

namespace Jsonconfig

/-! ## Strings, errors and dynamically typed values -/

/-- A Go string: a sequence of bytes. -/
abbrev GoString := List UInt8

/-- The Go string literal with the given text (its UTF-8 encoding). -/
def str (s : String) : GoString := s.toUTF8.data.toList

/-- The two sentinel errors of `strconv`: `ErrSyntax` and `ErrRange`. -/
inductive NumErr where
  | ErrSyntax
  | ErrRange
  deriving DecidableEq, Repr

/-- A non-nil Go `error` value, as far as this package produces one.
`fundamental msg` is the result of `errors.New(msg)` of `github.com/pkg/errors`;
`numError fn num err` is `&strconv.NumError{Func: fn, Num: num, Err: err}`. -/
inductive GoError where
  | fundamental (msg : GoString)
  | numError (fn : GoString) (num : GoString) (err : NumErr)
  deriving DecidableEq, Repr

/-- A `time.Time` value (its three fields; the location by name). -/
structure Time where
  wall : Nat
  ext : Int
  loc : Option GoString
  deriving DecidableEq, Repr

/-- A Go `interface{}` value. `nil` is the nil interface. Integers carry their
mathematical value (see `Value.InRange` for the width of each type), floats
their IEEE-754 bit pattern, a duration its count of nanoseconds. `map none` is
a nil `map[string]interface{}` held in a non-nil interface, `slice` a
`[]interface{}`, and `other` a value of any other dynamic type (named by its
type). -/
inductive Value where
  | nil
  | string (s : GoString)
  | int (n : Int)
  | int8 (n : Int)
  | int16 (n : Int)
  | int32 (n : Int)
  | int64 (n : Int)
  | uint (n : Nat)
  | uint8 (n : Nat)
  | uint16 (n : Nat)
  | uint32 (n : Nat)
  | uint64 (n : Nat)
  | bool (b : Bool)
  | float32 (bits : Nat)
  | float64 (bits : Nat)
  | duration (d : Int)
  | time (t : Time)
  | map (m : Option (List (GoString × Value)))
  | slice (l : List Value)
  | other (typeName : GoString)

/-- The contents of a non-nil `map[string]interface{}`. -/
abbrev Entries := List (GoString × Value)

/-- A `map[string]interface{}`: the nil map or a map with entries. -/
abbrev GoMap := Option Entries

/-- A Go run-time panic. -/
inductive Panic where
  | typeAssertion
  | nilMapAssignment
  deriving DecidableEq, Repr

/-- The entry stored under key `k`, if there is one. -/
def lookup (k : GoString) : Entries → Option Value
  | [] => none
  | (k', v) :: rest => if k' = k then some v else lookup k rest

/-- The Go expression `m[k]` on a `map[string]interface{}`: the stored value,
or the zero value of `interface{}` (nil) when the map is nil or has no such
key. -/
def index (m : GoMap) (k : GoString) : Value :=
  match m with
  | none => Value.nil
  | some kvs =>
    match lookup k kvs with
    | none => Value.nil
    | some v => v

/-- The entries of a map after the Go statement `m[k] = v`. -/
def assign (k : GoString) (v : Value) : Entries → Entries
  | [] => [(k, v)]
  | (k', v') :: rest => if k' = k then (k, v) :: rest else (k', v') :: assign k v rest

/-- The width of each integer type: the values a well-typed integer carries. -/
def Value.InRange : Value → Prop
  | Value.int n => -(2 : Int) ^ 63 ≤ n ∧ n < 2 ^ 63
  | Value.int8 n => -(2 : Int) ^ 7 ≤ n ∧ n < 2 ^ 7
  | Value.int16 n => -(2 : Int) ^ 15 ≤ n ∧ n < 2 ^ 15
  | Value.int32 n => -(2 : Int) ^ 31 ≤ n ∧ n < 2 ^ 31
  | Value.int64 n => -(2 : Int) ^ 63 ≤ n ∧ n < 2 ^ 63
  | Value.uint n => n < 2 ^ 64
  | Value.uint8 n => n < 2 ^ 8
  | Value.uint16 n => n < 2 ^ 16
  | Value.uint32 n => n < 2 ^ 32
  | Value.uint64 n => n < 2 ^ 64
  | Value.float32 bits => bits < 2 ^ 32
  | Value.float64 bits => bits < 2 ^ 64
  | Value.duration d => -(2 : Int) ^ 63 ≤ d ∧ d < 2 ^ 63
  | _ => True

/-- The value is a string, an integer of some width, a float or a boolean. -/
def Value.IsPrimitive : Value → Prop
  | Value.string _ => True
  | Value.int _ => True
  | Value.int8 _ => True
  | Value.int16 _ => True
  | Value.int32 _ => True
  | Value.int64 _ => True
  | Value.uint _ => True
  | Value.uint8 _ => True
  | Value.uint16 _ => True
  | Value.uint32 _ => True
  | Value.uint64 _ => True
  | Value.bool _ => True
  | Value.float32 _ => True
  | Value.float64 _ => True
  | _ => False

/-- The value is a non-nil `map[string]interface{}`: a key-mapping. -/
def Value.IsKeyMapping : Value → Prop
  | Value.map (some _) => True
  | _ => False

/-! ## The store -/

/-- The `Config` struct: its field `m`. -/
structure Config where
  m : GoMap

/-- Every section entry of the store is a key-mapping. -/
def Config.SectionsAreMappings (c : Config) : Prop :=
  ∀ kvs s e, c.m = some kvs → lookup s kvs = some e → e.IsKeyMapping

/-- The result `Get` gives for a section or key that does not exist: the nil
interface. -/
def absent : Value := Value.nil

/-- `Config.Get`. -/
def Get (c : Config) (sec key : GoString) : Except Panic Value :=
  let tmp := index c.m sec
  match tmp with
  | Value.nil => Except.ok Value.nil
  | Value.map entries => Except.ok (index entries key)
  | _ => Except.error Panic.typeAssertion

/-- `Config.SetValue`: the store after the call, or the panic it raises. The
map held in `tmp` is the one stored under `section`, so the write through `tmp`
is a write to that entry. -/
def SetValue (c : Config) (sec key : GoString) (value : Value) : Except Panic Config :=
  let tmp := index c.m sec
  match tmp with
  | Value.nil =>
    match c.m with
    | none => Except.error Panic.nilMapAssignment
    | some kvs => Except.ok { m := some (assign sec (Value.map (some (assign key value []))) kvs) }
  | Value.map none => Except.error Panic.nilMapAssignment
  | Value.map (some entries) =>
    Except.ok { m := c.m.map (assign sec (Value.map (some (assign key value entries)))) }
  | _ => Except.error Panic.typeAssertion

/-! ## Machine integers and floats -/

/-- The size in bits of `int` and `uint`: `strconv.IntSize`. -/
def intSize : Nat := 64

/-- Conversion of an integer to `int64` (and to `int`, of the same width): the
value modulo 2^64, in the signed range. -/
def wrapInt64 (x : Int) : Int := (x + 2 ^ 63) % 2 ^ 64 - 2 ^ 63

/-- Conversion of an integer to `uint64`: the value modulo 2^64. -/
def wrapUint64 (x : Int) : Nat := (x % 2 ^ 64).toNat

/-- The functions of the Go standard library that the getters call and whose
results this development does not compute, and the conversions the language
leaves to the implementation. `ParseFloat s` is `strconv.ParseFloat(s, 64)`
(the bits of the result and the error), `FormatFloat f` is
`strconv.FormatFloat(f, 'f', -1, 64)`, `DurationString d` is
`time.Duration(d).String()`, `TimeFormatRFC3339 t` is
`t.Format(time.RFC3339)`, `Quote` is `strconv.Quote`, `widen` is the
conversion `float64(f)` of a 32-bit float, and `intOfUnrepresentable` is the
conversion `int(f)` of a float that is NaN, infinite or whose truncation lies
outside the range of `int` (the result is implementation-specific). -/
structure Env where
  ParseFloat : GoString → Nat × Option GoError
  FormatFloat : Nat → GoString
  DurationString : Int → GoString
  TimeFormatRFC3339 : Time → GoString
  Quote : GoString → GoString
  widen : Nat → Nat
  intOfUnrepresentable : Nat → Int

/-- The integer part of the magnitude of a finite binary float with `fracBits`
fraction bits, exponent bias `bias`, exponent field `e` and fraction field
`frac`. -/
def truncMagnitude (fracBits bias e frac : Nat) : Nat :=
  let mant := if e = 0 then frac else 2 ^ fracBits + frac
  let ex := if e = 0 then 1 else e
  if bias + fracBits ≤ ex then mant * 2 ^ (ex - (bias + fracBits))
  else mant / 2 ^ (bias + fracBits - ex)

/-- The conversion `int(f)` of a 64-bit float: truncation toward zero. -/
def float64ToInt (env : Env) (bits : Nat) : Int :=
  let sign := bits / 2 ^ 63 % 2
  let e := bits / 2 ^ 52 % 2048
  let frac := bits % 2 ^ 52
  if e = 2047 then env.intOfUnrepresentable bits
  else
    let mag : Int := truncMagnitude 52 1023 e frac
    let v : Int := if sign = 1 then -mag else mag
    if -(2 : Int) ^ 63 ≤ v ∧ v < 2 ^ 63 then v else env.intOfUnrepresentable bits

/-- The conversion `int(f)` of a 32-bit float: truncation toward zero. -/
def float32ToInt (env : Env) (bits : Nat) : Int :=
  let sign := bits / 2 ^ 31 % 2
  let e := bits / 2 ^ 23 % 256
  let frac := bits % 2 ^ 23
  if e = 255 then env.intOfUnrepresentable (env.widen bits)
  else
    let mag : Int := truncMagnitude 23 127 e frac
    let v : Int := if sign = 1 then -mag else mag
    if -(2 : Int) ^ 63 ≤ v ∧ v < 2 ^ 63 then v else env.intOfUnrepresentable (env.widen bits)

/-! ## Errors -/

/-- The method `Error()` of an error value. -/
def GoError.Error (env : Env) : GoError → GoString
  | GoError.fundamental msg => msg
  | GoError.numError fn num err =>
    str "strconv." ++ fn ++ str ": parsing " ++ env.Quote num ++ str ": " ++
      (match err with
       | NumErr.ErrSyntax => str "invalid syntax"
       | NumErr.ErrRange => str "value out of range")

/-- Go's `strings.Contains(msg, part)`. -/
def Contains (msg part : GoString) : Prop := ∃ before after, msg = before ++ part ++ after

/-- The function `syntaxError` of `strconv`. -/
def syntaxError (fn s : GoString) : GoError := GoError.numError fn s NumErr.ErrSyntax

/-- The function `rangeError` of `strconv`. -/
def rangeError (fn s : GoString) : GoError := GoError.numError fn s NumErr.ErrRange

/-! ## strconv: formatting integers and booleans -/

/-- The constant `smallsString` of `strconv`: the two-digit numbers 00..99. -/
def smallsString : GoString :=
  str ("00010203040506070809" ++
    "10111213141516171819" ++
    "20212223242526272829" ++
    "30313233343536373839" ++
    "40414243444546474849" ++
    "50515253545556575859" ++
    "60616263646566676869" ++
    "70717273747576777879" ++
    "80818283848586878889" ++
    "90919293949596979899")

/-- The constant `digits` of `strconv`. -/
def digits : GoString := str "0123456789abcdefghijklmnopqrstuvwxyz"

/-- The constant `nSmalls` of `strconv`. -/
def nSmalls : Nat := 100

/-- The byte `s[i]` of a string, for an index within it. -/
def byteAt (s : GoString) (i : Nat) : UInt8 := s.getD i 0

/-- The function `small` of `strconv`: the decimal string of `i < nSmalls`. -/
def small (i : Nat) : GoString :=
  if i < 10 then [byteAt digits i]
  else [byteAt smallsString (i * 2), byteAt smallsString (i * 2 + 1)]

/-- The loop `for us >= 100` of `formatBits` in base 10, which writes two
digits per round at the front of the filled part `a[i:]` of the buffer. The
buffer has 65 bytes, room for the 32 rounds counted by the first argument. -/
def formatBitsLoop : Nat → Nat → GoString → Nat × GoString
  | 0, us, a => (us, a)
  | rounds + 1, us, a =>
    if 100 ≤ us then
      let is := us % 100 * 2
      formatBitsLoop rounds (us / 100) (byteAt smallsString is :: byteAt smallsString (is + 1) :: a)
    else (us, a)

/-- The function `formatBits` of `strconv` (`strconv/itoa.go` of the Go standard
library) for `base == 10` on a 64-bit host: the string of `u`, negated first
when `neg`. -/
def formatBits (u : Nat) (neg : Bool) : GoString :=
  let u := if neg then (2 ^ 64 - u) % 2 ^ 64 else u
  let r := formatBitsLoop 32 u []
  let us := r.1
  let is := us * 2
  let a := byteAt smallsString (is + 1) :: r.2
  let a := if 10 ≤ us then byteAt smallsString is :: a else a
  if neg then 45 :: a else a

/-- The function `strconv.FormatInt(i, 10)`. -/
def FormatInt (i : Int) : GoString :=
  if 0 ≤ i ∧ i < nSmalls then small i.toNat
  else formatBits (wrapUint64 i) (decide (i < 0))

/-- The function `strconv.FormatUint(i, 10)`. -/
def FormatUint (i : Nat) : GoString :=
  if i < nSmalls then small i
  else formatBits i false

/-- The function `strconv.Itoa`. -/
def Itoa (i : Int) : GoString := FormatInt (wrapInt64 i)

/-- The function `strconv.FormatBool`. -/
def FormatBool (b : Bool) : GoString := if b then str "true" else str "false"

/-! ## strconv: parsing integers -/

/-- The function `lower` of `strconv`: `c | ('x' - 'X')`. -/
def lower (c : UInt8) : Nat := c.toNat ||| 32

/-- The digit value that the loop of `ParseUint` reads from a byte outside
base 0: its `switch`, where `none` is the `default` case. -/
def digitValue (c : UInt8) : Option Nat :=
  if 48 ≤ c.toNat ∧ c.toNat ≤ 57 then some (c.toNat - 48)
  else if 97 ≤ lower c ∧ lower c ≤ 122 then some (lower c - 97 + 10)
  else none

/-- The loop of `strconv.ParseUint` over the bytes of the string, in base 10.
`s0` is the whole string, `n` the number read so far. -/
def parseUintLoop (s0 : GoString) (maxVal cutoff : Nat) : GoString → Nat → Nat × Option GoError
  | [], n => (n, none)
  | c :: rest, n =>
    match digitValue c with
    | none => (0, some (syntaxError (str "ParseUint") s0))
    | some d =>
      if 10 ≤ d then (0, some (syntaxError (str "ParseUint") s0))
      else if cutoff ≤ n then (maxVal, some (rangeError (str "ParseUint") s0))
      else
        let n10 := n * 10 % 2 ^ 64
        let n1 := (n10 + d) % 2 ^ 64
        if n1 < n10 ∨ maxVal < n1 then (maxVal, some (rangeError (str "ParseUint") s0))
        else parseUintLoop s0 maxVal cutoff rest n1

/-- The function `strconv.ParseUint(s, 10, bitSize)` for `bitSize` 0 or 64 (the
call of `ParseInt` below passes `bitSize` 0, which stands for `IntSize`). -/
def ParseUint (s : GoString) (bitSize : Nat) : Nat × Option GoError :=
  if s = [] then (0, some (syntaxError (str "ParseUint") s))
  else
    let bitSize := if bitSize = 0 then intSize else bitSize
    let cutoff := (2 ^ 64 - 1) / 10 + 1
    let maxVal := 2 ^ bitSize - 1
    parseUintLoop s maxVal cutoff s 0

/-- The function `strconv.ParseInt(s, 10, bitSize)` for `bitSize` 0 or 64. -/
def ParseInt (s0 : GoString) (bitSize : Nat) : Int × Option GoError :=
  if s0 = [] then (0, some (syntaxError (str "ParseInt") s0))
  else
    let neg := decide (s0.head? = some 45)
    let s := if s0.head? = some 43 then s0.tail else if s0.head? = some 45 then s0.tail else s0
    let r := ParseUint s bitSize
    let un := r.1
    match r.2 with
    | some (GoError.numError _ _ NumErr.ErrSyntax) =>
      (0, some (GoError.numError (str "ParseInt") s0 NumErr.ErrSyntax))
    | _ =>
      let bitSize := if bitSize = 0 then intSize else bitSize
      let cutoff := 2 ^ (bitSize - 1)
      if neg = false ∧ cutoff ≤ un then
        (wrapInt64 (cutoff - 1), some (rangeError (str "ParseInt") s0))
      else if neg = true ∧ cutoff < un then
        (wrapInt64 (-(wrapInt64 cutoff)), some (rangeError (str "ParseInt") s0))
      else
        let n := wrapInt64 un
        (if neg then wrapInt64 (-n) else n, none)

/-- The loop of the fast path of `strconv.Atoi`: `none` when a byte is not a
decimal digit, else the number read. The subtraction `ch -= '0'` is on bytes. -/
def atoiLoop : GoString → Int → Option Int
  | [], n => some n
  | ch :: rest, n =>
    let d := (ch.toNat + 256 - 48) % 256
    if 9 < d then none
    else atoiLoop rest (wrapInt64 (n * 10 + d))

/-- The function `strconv.Atoi` (`strconv/atoi.go` of the Go standard library):
the fast path for strings of 1 to 18 bytes, which cannot overflow, and
`ParseInt` for all others. -/
def Atoi (s0 : GoString) : Int × Option GoError :=
  let sLen := s0.length
  if (intSize = 32 ∧ 0 < sLen ∧ sLen < 10) ∨ (intSize = 64 ∧ 0 < sLen ∧ sLen < 19) then
    let signed := decide (s0.head? = some 45 ∨ s0.head? = some 43)
    let s := if signed then s0.tail else s0
    if signed = true ∧ s.length < 1 then (0, some (syntaxError (str "Atoi") s0))
    else
      match atoiLoop s 0 with
      | none => (0, some (syntaxError (str "Atoi") s0))
      | some n => (if s0.head? = some 45 then wrapInt64 (-n) else n, none)
  else
    let r := ParseInt s0 0
    let err := match r.2 with
      | some (GoError.numError _ num e) => some (GoError.numError (str "Atoi") num e)
      | other => other
    (wrapInt64 r.1, err)

/-! ## The typed getters -/

/-- `Config.GetAsString`. -/
def GetAsString (env : Env) (c : Config) (sec key : GoString) : Except Panic GoString :=
  match Get c sec key with
  | Except.error p => Except.error p
  | Except.ok val =>
    match val with
    | Value.string s => Except.ok s
    | Value.int n => Except.ok (Itoa n)
    | Value.int32 n => Except.ok (FormatInt (wrapInt64 n))
    | Value.int64 n => Except.ok (FormatInt n)
    | Value.uint32 n => Except.ok (FormatUint (wrapUint64 n))
    | Value.uint64 n => Except.ok (FormatUint n)
    | Value.bool b => Except.ok (FormatBool b)
    | Value.float32 f => Except.ok (env.FormatFloat (env.widen f))
    | Value.float64 f => Except.ok (env.FormatFloat f)
    | Value.duration d => Except.ok (env.DurationString d)
    | Value.time t => Except.ok (env.TimeFormatRFC3339 t)
    | _ => Except.ok []

/-- `Config.GetAsFloat64`: the bits of the float returned, and the error. -/
def GetAsFloat64 (env : Env) (c : Config) (sec key : GoString) :
    Except Panic (Nat × Option GoError) :=
  match Get c sec key with
  | Except.error p => Except.error p
  | Except.ok val =>
    match val with
    | Value.string s => Except.ok (env.ParseFloat s)
    | Value.float32 f => Except.ok (env.widen f, none)
    | Value.float64 f => Except.ok (f, none)
    | _ =>
      Except.ok (0, some (GoError.fundamental
        (str "convert to float64 in: " ++ sec ++ str "." ++ key)))

/-- `Config.GetAsInt`. -/
def GetAsInt (env : Env) (c : Config) (sec key : GoString) :
    Except Panic (Int × Option GoError) :=
  match Get c sec key with
  | Except.error p => Except.error p
  | Except.ok val =>
    match val with
    | Value.string s => Except.ok (Atoi s)
    | Value.int n => Except.ok (n, none)
    | Value.int32 n => Except.ok (wrapInt64 n, none)
    | Value.int64 n => Except.ok (wrapInt64 n, none)
    | Value.uint32 n => Except.ok (wrapInt64 n, none)
    | Value.uint64 n => Except.ok (wrapInt64 n, none)
    | Value.bool b => if b then Except.ok (1, none) else Except.ok (0, none)
    | Value.float32 f => Except.ok (float32ToInt env f, none)
    | Value.float64 f => Except.ok (float64ToInt env f, none)
    | _ =>
      Except.ok (0, some (GoError.fundamental
        (str "convert to int in: " ++ sec ++ str "." ++ key)))

/-! ## Integers and their decimal representation -/

/-- The mathematical value of an integer of any width, signed or unsigned. -/
def Value.intValue : Value → Option Int
  | Value.int n => some n
  | Value.int8 n => some n
  | Value.int16 n => some n
  | Value.int32 n => some n
  | Value.int64 n => some n
  | Value.uint n => some n
  | Value.uint8 n => some n
  | Value.uint16 n => some n
  | Value.uint32 n => some n
  | Value.uint64 n => some n
  | _ => none

/-- The dynamic type is one of the five integer types the type switches of
`GetAsString` and `GetAsInt` list: int, int32, int64, uint32, uint64. -/
def Value.IsSupportedInt : Value → Prop
  | Value.int _ => True
  | Value.int32 _ => True
  | Value.int64 _ => True
  | Value.uint32 _ => True
  | Value.uint64 _ => True
  | _ => False

/-- The byte of a decimal digit: `'0' + d`. -/
def digitByte (d : Nat) : UInt8 := UInt8.ofNat (48 + d)

/-- The number that a sequence of decimal digits, most significant first,
denotes. -/
def decimalValue (ds : List Nat) : Nat := ds.foldl (fun acc d => acc * 10 + d) 0

/-- The string `s` is the decimal representation of `n`: the decimal digits of
the magnitude of `n`, most significant first and without leading zeros (the one
digit 0 for zero), after a minus sign exactly when `n` is negative. -/
def IsDecimalOf (s : GoString) (n : Int) : Prop :=
  ∃ ds : List Nat, ds ≠ [] ∧ (∀ d ∈ ds, d < 10) ∧ (ds.head? = some 0 → ds = [0]) ∧
    decimalValue ds = n.natAbs ∧ s = (if n < 0 then [45] else []) ++ ds.map digitByte

/-- The decimal digits of a natural number, most significant first; the one
digit 0 for zero. -/
def decDigits (m : Nat) : List Nat := if m = 0 then [0] else (Nat.digits 10 m).reverse

/-- The store after `SetValue("limits", "retries", int8(5))` on an empty one. -/
def narrowStore : Config :=
  { m := some [(str "limits", Value.map (some [(str "retries", Value.int8 5)]))] }

/-! ## Base-10 integer literals -/

/-- The byte is a decimal digit, `'0'` to `'9'`. -/
def IsDigitByte (b : UInt8) : Prop := 48 ≤ b.toNat ∧ b.toNat ≤ 57

/-- The number that decimal digit bytes denote when they follow the digits of
the number `n`. -/
def literalFrom (n : Nat) (ds : GoString) : Nat :=
  ds.foldl (fun acc b => acc * 10 + (b.toNat - 48)) n

/-- The number that a sequence of decimal digit bytes denotes. -/
def literalValue (ds : GoString) : Nat := literalFrom 0 ds

/-- The string `s` is a base-10 integer literal denoting `n`: a non-empty
sequence of decimal digits, optionally after one sign `+` or `-`. -/
def IsIntLiteral (s : GoString) (n : Int) : Prop :=
  ∃ ds : GoString, ds ≠ [] ∧ (∀ b ∈ ds, IsDigitByte b) ∧
    ((s = ds ∧ n = literalValue ds) ∨ (s = 43 :: ds ∧ n = literalValue ds) ∨
      (s = 45 :: ds ∧ n = -(literalValue ds : Int)))

/-- The sign and the digits part that `Atoi` and `ParseInt` split a string
into: `signed` when the first byte is a sign, `neg` when it is `-`. -/
def SignSplit (s0 : GoString) (signed neg : Bool) (body : GoString) : Prop :=
  (s0 = 43 :: body ∧ signed = true ∧ neg = false) ∨
  (s0 = 45 :: body ∧ signed = true ∧ neg = true) ∨
  (s0 = body ∧ signed = false ∧ neg = false ∧ s0.head? ≠ some 43 ∧ s0.head? ≠ some 45)

/-- The store holding the strings "-42" and "12a" under the keys "offset" and
"width" of the section "limits". -/
def literalStore : Config :=
  { m := some [(str "limits", Value.map (some [(str "offset", Value.string (str "-42")),
      (str "width", Value.string (str "12a"))]))] }

/-! ## Kinds of dynamic types -/

/-- The kinds of dynamic type that the specification of the getters tells
apart: the nil interface (an absent value or a JSON null), strings, integers of
any width, booleans, 32-bit and 64-bit floats, durations, timestamps, and every
other type. -/
inductive Kind where
  | null
  | string
  | integer
  | boolean
  | float32
  | float64
  | duration
  | timestamp
  | other
  deriving DecidableEq, Repr

/-- The kind of the dynamic type of a value. -/
def Value.kind : Value → Kind
  | Value.nil => Kind.null
  | Value.string _ => Kind.string
  | Value.int _ => Kind.integer
  | Value.int8 _ => Kind.integer
  | Value.int16 _ => Kind.integer
  | Value.int32 _ => Kind.integer
  | Value.int64 _ => Kind.integer
  | Value.uint _ => Kind.integer
  | Value.uint8 _ => Kind.integer
  | Value.uint16 _ => Kind.integer
  | Value.uint32 _ => Kind.integer
  | Value.uint64 _ => Kind.integer
  | Value.bool _ => Kind.boolean
  | Value.float32 _ => Kind.float32
  | Value.float64 _ => Kind.float64
  | Value.duration _ => Kind.duration
  | Value.time _ => Kind.timestamp
  | Value.map _ => Kind.other
  | Value.slice _ => Kind.other
  | Value.other _ => Kind.other

/-- The dynamic type is a string, integer, boolean, float, duration or
timestamp type. -/
def Value.IsConvertible (v : Value) : Prop :=
  v.kind = Kind.string ∨ v.kind = Kind.integer ∨ v.kind = Kind.boolean ∨
    v.kind = Kind.float32 ∨ v.kind = Kind.float64 ∨ v.kind = Kind.duration ∨
    v.kind = Kind.timestamp

/-- The store after `SetValue("job", "timeout", 90 * time.Second)` and
`SetValue("job", "count", uint64(1) << 63)` on an empty one. -/
def jobStore : Config :=
  { m := some [(str "job", Value.map (some [(str "timeout", Value.duration 90000000000),
      (str "count", Value.uint64 (2 ^ 63))]))] }

/-! ## Stores used as concrete inputs -/

/-- An environment to evaluate the getters at inputs on which they call none
of its functions: each function returns the zero value of its result type. -/
def plainEnv : Env :=
  { ParseFloat := fun _ => (0, none)
    FormatFloat := fun _ => []
    DurationString := fun _ => []
    TimeFormatRFC3339 := fun _ => []
    Quote := fun s => s
    widen := fun _ => 0
    intOfUnrepresentable := fun _ => 0 }


/-- The key-mapping `{"name": "api", "debug": false, "note": null}`. -/
def serverEntries : Entries :=
  [(str "name", Value.string (str "api")), (str "debug", Value.bool false), (str "note", Value.nil)]

/-- The store holding `{"server": {"name": "api", "debug": false, "note": null}}`. -/
def serverStore : Config :=
  { m := some [(str "server", Value.map (some serverEntries))] }

/-! ## Loading: the file system, encoding/json and ReadConfig

`ReadConfig` opens the file with `os.Open` and decodes it with
`json.NewDecoder(f).Decode(&c.m)`. The file system is a parameter; the decoder
of `encoding/json` (Go standard library, `encoding/json/decode.go`) is modelled
from the JSON value it scans, not from the bytes of the text. -/

/-- A JSON value as the scanner of `encoding/json` delimits it. A number is its
literal text, a string and the name of a member are their unquoted text. -/
inductive Json where
  | null
  | bool (b : Bool)
  | number (lit : GoString)
  | string (s : GoString)
  | array (items : List Json)
  | object (members : List (GoString × Json))

/-- The errors that `ReadConfig` wraps: `pathError op path reason` is the
`*fs.PathError` of `os.Open`, `syntaxError msg` a `*json.SyntaxError`,
`unmarshalTypeError value goType` a `*json.UnmarshalTypeError` (both without
their `Offset`), and `readError msg` any other error of reading the stream,
such as `io.EOF`. -/
inductive Cause where
  | pathError (op path reason : GoString)
  | syntaxError (msg : GoString)
  | unmarshalTypeError (value goType : GoString)
  | readError (msg : GoString)
  deriving DecidableEq, Repr

/-- The error `errors.Wrap(cause, message)` of `github.com/pkg/errors`. -/
structure WrappedError where
  cause : Cause
  message : GoString
  deriving DecidableEq, Repr

/-- The method `Error()` of the errors that `ReadConfig` wraps. -/
def Cause.Error : Cause → GoString
  | Cause.pathError op path reason => op ++ str " " ++ path ++ str ": " ++ reason
  | Cause.syntaxError msg => msg
  | Cause.unmarshalTypeError value goType =>
    str "json: cannot unmarshal " ++ value ++ str " into Go value of type " ++ goType
  | Cause.readError msg => msg

/-- The method `Error()` of a wrapped error: the message, then the cause. -/
def WrappedError.Error (e : WrappedError) : GoString := e.message ++ str ": " ++ e.cause.Error

/-- What the decoder finds at the start of an opened file: no complete JSON
value, with the error it reports then (a syntax error, `io.EOF` on an empty
file), or a first JSON value, which is the one it decodes. -/
inductive Document where
  | noValue (err : Cause)
  | value (root : Json)

/-- The function `os.Open` on the files of the host: the error, or the
document in the file. -/
abbrev FileSystem := GoString → Except Cause Document

/-- The method `saveError` of the decode state: the first error is kept. -/
def saveError (saved : Option Cause) (err : Cause) : Option Cause :=
  match saved with
  | none => some err
  | some first => some first

mutual
/-- Decoding of a JSON value into an `interface{}` (`valueInterface`, and
`literalStore` for a member of the root object): null is nil, a number is the
float64 that `strconv.ParseFloat` reads, or nil with a saved error when that
fails; an array is a `[]interface{}`, an object a `map[string]interface{}`.
The second component is the saved error of the decode state. -/
def decodeInterface (env : Env) : Json → Option Cause → Value × Option Cause
  | Json.null, saved => (Value.nil, saved)
  | Json.bool b, saved => (Value.bool b, saved)
  | Json.number lit, saved =>
    match (env.ParseFloat lit).2 with
    | none => (Value.float64 (env.ParseFloat lit).1, saved)
    | some _ =>
      (Value.nil, saveError saved (Cause.unmarshalTypeError (str "number " ++ lit) (str "float64")))
  | Json.string s, saved => (Value.string s, saved)
  | Json.array items, saved =>
    let r := decodeArray env items saved
    (Value.slice r.1, r.2)
  | Json.object members, saved =>
    let r := decodeObject env members [] saved
    (Value.map (some r.1), r.2)
/-- Decoding of the items of an array, in order (`arrayInterface`). -/
def decodeArray (env : Env) : List Json → Option Cause → List Value × Option Cause
  | [], saved => ([], saved)
  | j :: rest, saved =>
    let r := decodeInterface env j saved
    let rs := decodeArray env rest r.2
    (r.1 :: rs.1, rs.2)
/-- Decoding of the members of an object, in order, into the entries of a map
(`objectInterface`, and `object` for the root): a later member of the same
name overwrites an earlier one. -/
def decodeObject (env : Env) :
    List (GoString × Json) → Entries → Option Cause → Entries × Option Cause
  | [], acc, saved => (acc, saved)
  | (k, j) :: rest, acc, saved =>
    let r := decodeInterface env j saved
    decodeObject env rest (assign k r.1 acc) r.2
end

/-- The type of the field `m` as `reflect` prints it. -/
def mapTypeName : GoString := str "map[string]interface {}"

/-- The call `json.NewDecoder(f).Decode(&c.m)` on a nil `c.m`: the map after
the call and the error returned. A root null leaves the map nil without an
error, a root object is decoded into a new map, every other root leaves the map
nil and gives an `UnmarshalTypeError`. -/
def Decode (env : Env) (doc : Document) : GoMap × Option Cause :=
  match doc with
  | Document.noValue err => (none, some err)
  | Document.value root =>
    match root with
    | Json.null => (none, none)
    | Json.bool _ => (none, some (Cause.unmarshalTypeError (str "bool") mapTypeName))
    | Json.number _ => (none, some (Cause.unmarshalTypeError (str "number") mapTypeName))
    | Json.string _ => (none, some (Cause.unmarshalTypeError (str "string") mapTypeName))
    | Json.array _ => (none, some (Cause.unmarshalTypeError (str "array") mapTypeName))
    | Json.object members =>
      let r := decodeObject env members [] none
      (some r.1, r.2)

/-- `ReadConfig`: the store behind the pointer returned, and the error. -/
def ReadConfig (env : Env) (fs : FileSystem) (configFile : GoString) :
    Config × Option WrappedError :=
  match fs configFile with
  | Except.error err => ({ m := none }, some { cause := err, message := str "read file" })
  | Except.ok doc =>
    let r := Decode env doc
    match r.2 with
    | some err => ({ m := r.1 }, some { cause := err, message := str "decode json" })
    | none => ({ m := r.1 }, none)

/-- The root is a JSON object. -/
def Json.IsObject : Json → Prop
  | Json.object _ => True
  | _ => False

/-- The root is a JSON object all of whose members are JSON objects. -/
def Json.IsObjectOfObjects : Json → Prop
  | Json.object members => ∀ k j, (k, j) ∈ members → j.IsObject
  | _ => False

/-- The store after a sequence of `SetValue` calls, or the first panic. -/
def runSetValues : Config → List (GoString × GoString × Value) → Except Panic Config
  | c, [] => Except.ok c
  | c, (sec, key, value) :: rest =>
    match SetValue c sec key value with
    | Except.error p => Except.error p
    | Except.ok c' => runSetValues c' rest

/-! ## JSON numbers as 64-bit floats -/

/-- The rounds of `floorLog2`: one halving per round. -/
def log2Loop : Nat → Nat → Nat
  | 0, _ => 0
  | rounds + 1, a => if 2 ≤ a then log2Loop rounds (a / 2) + 1 else 0

/-- The position of the highest set bit of a positive number below 2^65. -/
def floorLog2 (a : Nat) : Nat := log2Loop 64 a

/-- The bits of the 64-bit float that holds the integer `n`, for `n` of
magnitude at most 2^53, where every integer is a float: sign, exponent field
and fraction field. -/
def float64OfInt (n : Int) : Nat :=
  if n = 0 then 0
  else
    let a := n.natAbs
    let k := floorLog2 a
    let sign := if n < 0 then 1 else 0
    sign * 2 ^ 63 + (1023 + k) * 2 ^ 52 + (a * 2 ^ 52 / 2 ^ k - 2 ^ 52)

/-- Every byte of the string is a decimal digit. -/
def allDigits (s : GoString) : Bool := s.all (fun b => decide (48 ≤ b.toNat ∧ b.toNat ≤ 57))

/-- The function `strconv.ParseFloat(s, 64)` on the strings of the concrete
documents below: a non-empty string of decimal digits that denotes a number of
at most 2^53 is read as the float of that number, and every other string is
reported as a syntax error, as `strconv.ParseFloat` reports "api". -/
def digitsParseFloat (s : GoString) : Nat × Option GoError :=
  if s ≠ [] ∧ allDigits s = true ∧ literalValue s ≤ 2 ^ 53 then
    (float64OfInt (literalValue s), none)
  else (0, some (syntaxError (str "ParseFloat") s))

/-- The environment of the concrete documents below: `plainEnv` with
`digitsParseFloat`. -/
def digitsEnv : Env := { plainEnv with ParseFloat := digitsParseFloat }

/-- The document `{"server": {"port": 8080, "debug": true, "name": "api"}}`. -/
def exampleDoc : Json :=
  Json.object [(str "server", Json.object [(str "port", Json.number (str "8080")),
    (str "debug", Json.bool true), (str "name", Json.string (str "api"))])]

/-- The document `{"server": 5}`. -/
def scalarDoc : Json := Json.object [(str "server", Json.number (str "5"))]

/-- A file system with four files: "config.json" holds `exampleDoc`,
"null.json" holds `null`, "scalar.json" holds `scalarDoc`, and "broken.json"
holds the text `not json`, at which the decoder reports a syntax error. No
other file exists. -/
def diskFs : FileSystem := fun path =>
  if path = str "config.json" then Except.ok (Document.value exampleDoc)
  else if path = str "null.json" then Except.ok (Document.value Json.null)
  else if path = str "scalar.json" then Except.ok (Document.value scalarDoc)
  else if path = str "broken.json" then
    Except.ok (Document.noValue
      (Cause.syntaxError (str "invalid character 'o' in literal null (expecting 'u')")))
  else Except.error (Cause.pathError (str "open") path (str "no such file or directory"))

/-- The store after `SetValue("limits", "offset", -42)` on `serverStore`. -/
def limitsStore : Config :=
  { m := some [(str "server", Value.map (some serverEntries)),
      (str "limits", Value.map (some [(str "offset", Value.int (-42))]))] }

/-- The store holding `{"flags": {"on": true, "off": false}}`. -/
def flagStore : Config :=
  { m := some [(str "flags", Value.map (some [(str "on", Value.bool true),
      (str "off", Value.bool false)]))] }

/-! ## Lookup and assignment on maps -/

theorem lookup_assign_same (k : GoString) (v : Value) (kvs : Entries) :
    lookup k (assign k v kvs) = some v := by
  induction kvs with
  | nil => simp [assign, lookup]
  | cons hd tl ih =>
    obtain ⟨k', v'⟩ := hd
    by_cases h : k' = k
    · simp [assign, lookup, h]
    · simp [assign, lookup, h, ih]

theorem lookup_assign_other (k k' : GoString) (v : Value) (kvs : Entries) (h : k' ≠ k) :
    lookup k' (assign k v kvs) = lookup k' kvs := by
  induction kvs with
  | nil => simp [assign, lookup, Ne.symm h]
  | cons hd tl ih =>
    obtain ⟨k₁, v₁⟩ := hd
    by_cases h₁ : k₁ = k
    · subst h₁
      simp [assign, lookup, Ne.symm h]
    · by_cases h₂ : k₁ = k'
      · subst h₂
        simp [assign, lookup, h₁]
      · simp [assign, lookup, h₁, h₂, ih]

/-! ## Get and SetValue -/

theorem get_of_section (c : Config) (kvs entries : Entries) (sec key : GoString)
    (hm : c.m = some kvs) (hs : lookup sec kvs = some (Value.map (some entries))) :
    Get c sec key = Except.ok (index (some entries) key) := by
  simp [Get, index, hm, hs]

theorem get_of_no_section (c : Config) (sec key : GoString)
    (hs : ∀ kvs, c.m = some kvs → lookup sec kvs = none) :
    Get c sec key = Except.ok Value.nil := by
  cases hm : c.m with
  | none => simp [Get, index, hm]
  | some kvs => simp [Get, index, hm, hs kvs hm]

theorem setValue_get (c : Config) (kvs : Entries) (sec key : GoString) (v : Value)
    (hm : c.m = some kvs) (hs : c.SectionsAreMappings) :
    ∃ c', SetValue c sec key v = Except.ok c' ∧ Get c' sec key = Except.ok v := by
  cases hl : lookup sec kvs with
  | none =>
    refine ⟨_, by simp only [SetValue, index, hm, hl]; rfl, ?_⟩
    simp [Get, index, lookup_assign_same]
  | some e =>
    have he := hs kvs sec e hm hl
    cases e with
    | map m =>
      cases m with
      | none => simp [Value.IsKeyMapping] at he
      | some entries =>
        refine ⟨_, by simp only [SetValue, index, hm, hl]; rfl, ?_⟩
        simp [Get, index, lookup_assign_same]
    | _ => simp [Value.IsKeyMapping] at he

theorem serverStore_sections : serverStore.SectionsAreMappings := by
  intro kvs s e hm hl
  simp only [serverStore, Option.some.injEq] at hm
  subst hm
  simp only [lookup] at hl
  split at hl
  · cases hl
    trivial
  · cases hl

/-- C1: on a store whose mapping is initialised and whose section entries are
key-mappings, for every section name (present or new), key and string, integer,
float or boolean value `v`, `SetValue` succeeds and `Get` on the resulting
store returns exactly `v` at that section and key. -/
theorem setValue_get_roundtrip (c : Config) (kvs : Entries) (sec key : GoString) (v : Value)
    (hm : c.m = some kvs) (hs : c.SectionsAreMappings) (hv : v.IsPrimitive) :
    ∃ c', SetValue c sec key v = Except.ok c' ∧ Get c' sec key = Except.ok v := by
  have _ := hv
  exact setValue_get c kvs sec key v hm hs

/-- C1 at the brand-new section "db" of `serverStore`, written with the int 5432. -/
theorem setValue_get_roundtrip_witness :
    serverStore.SectionsAreMappings ∧ (Value.int 5432).IsPrimitive ∧
    ∃ c', SetValue serverStore (str "db") (str "port") (Value.int 5432) = Except.ok c' ∧
      Get c' (str "db") (str "port") = Except.ok (Value.int 5432) :=
  ⟨serverStore_sections, trivial,
    setValue_get_roundtrip serverStore _ (str "db") (str "port") (Value.int 5432) rfl
      serverStore_sections trivial⟩

/-- C2: `Get` returns the absent result, without a fault, when the section is
not a section of the store, and when the section is one but the key is not a
key of that section's mapping. -/
theorem get_missing_is_absent (c : Config) (sec key : GoString) :
    ((∀ kvs, c.m = some kvs → lookup sec kvs = none) → Get c sec key = Except.ok absent) ∧
    (∀ kvs entries, c.m = some kvs → lookup sec kvs = some (Value.map (some entries)) →
      lookup key entries = none → Get c sec key = Except.ok absent) := by
  refine ⟨get_of_no_section c sec key, ?_⟩
  intro kvs entries hm hs hk
  rw [get_of_section c kvs entries sec key hm hs]
  simp [index, hk, absent]

/-- C2 on `serverStore`: the section "db" does not exist, and the section
"server" has no key "port". -/
theorem get_missing_is_absent_witness :
    Get serverStore (str "db") (str "port") = Except.ok absent ∧
    Get serverStore (str "server") (str "port") = Except.ok absent :=
  ⟨(get_missing_is_absent serverStore (str "db") (str "port")).1
      (by intro kvs hm; cases hm; rfl),
    (get_missing_is_absent serverStore (str "server") (str "port")).2 _ _ rfl rfl rfl⟩

/-- C3, refuted as stated: in `serverStore` the key "note" of section "server"
is present with the value null, the key "port" is missing, and `Get` returns
for the present key the same absent result as for the missing one. -/
theorem get_present_null_eq_absent :
    serverStore.m = some [(str "server", Value.map (some serverEntries))] ∧
    lookup (str "note") serverEntries = some Value.nil ∧
    lookup (str "port") serverEntries = none ∧
    Get serverStore (str "server") (str "note") = Except.ok absent ∧
    Get serverStore (str "server") (str "note") = Get serverStore (str "server") (str "port") :=
  ⟨rfl, rfl, rfl, rfl, rfl⟩

/-- C3, amended: for every section and key whose key is present with a stored
value other than null, zero values (0, "", false) included, `Get` returns that
value, which differs from the absent result it returns for a missing key. -/
theorem get_present_ne_absent (c : Config) (kvs entries : Entries) (sec key : GoString)
    (v : Value) (hm : c.m = some kvs) (hs : lookup sec kvs = some (Value.map (some entries)))
    (hk : lookup key entries = some v) (hv : v ≠ Value.nil) :
    Get c sec key = Except.ok v ∧ Get c sec key ≠ Except.ok absent := by
  have hg : Get c sec key = Except.ok v := by
    rw [get_of_section c kvs entries sec key hm hs]
    simp [index, hk]
  refine ⟨hg, ?_⟩
  rw [hg]
  intro h
  injection h with h
  exact hv h

/-- C3, amended, at the key "debug" of `serverStore`, present with the zero
value `false`. -/
theorem get_present_ne_absent_witness :
    Get serverStore (str "server") (str "debug") = Except.ok (Value.bool false) ∧
    Get serverStore (str "server") (str "debug") ≠ Except.ok absent :=
  get_present_ne_absent serverStore _ _ (str "server") (str "debug") (Value.bool false) rfl
    rfl rfl (by intro h; cases h)

/-! ## Formatting integers -/

set_option maxRecDepth 100000 in
theorem smalls_table : ∀ k, k < 100 →
    byteAt smallsString (k * 2) = digitByte (k / 10) ∧
    byteAt smallsString (k * 2 + 1) = digitByte (k % 10) := by
  decide

theorem digits_table : ∀ i, i < 10 → byteAt digits i = digitByte i := by decide

theorem revDigits_step (us : Nat) (h : 100 ≤ us) :
    (Nat.digits 10 us).reverse = (Nat.digits 10 (us / 100)).reverse ++ [us % 100 / 10, us % 100 % 10] := by
  have h1 : 0 < us := by omega
  have h2 : 0 < us / 10 := by omega
  rw [Nat.digits_def' (by norm_num) h1, Nat.digits_def' (by norm_num) h2]
  have e1 : us / 10 / 10 = us / 100 := by omega
  have e2 : us / 10 % 10 = us % 100 / 10 := by omega
  have e3 : us % 10 = us % 100 % 10 := by omega
  rw [e1, e2, e3]
  simp

theorem formatBitsLoop_spec (rounds : Nat) : ∀ (us : Nat) (a : GoString), us < 100 ^ (rounds + 1) →
    (formatBitsLoop rounds us a).1 < 100 ∧ (0 < us → 0 < (formatBitsLoop rounds us a).1) ∧
    (Nat.digits 10 (formatBitsLoop rounds us a).1).reverse.map digitByte ++ (formatBitsLoop rounds us a).2 =
      (Nat.digits 10 us).reverse.map digitByte ++ a := by
  induction rounds with
  | zero =>
    intro us a h
    simp only [formatBitsLoop]
    exact ⟨by simpa using h, fun h => h, trivial⟩
  | succ r ih =>
    intro us a h
    by_cases hus : 100 ≤ us
    · have hlt : us / 100 < 100 ^ (r + 1) := by
        rw [Nat.div_lt_iff_lt_mul (by norm_num)]
        calc us < 100 ^ (r + 1 + 1) := h
          _ = 100 ^ (r + 1) * 100 := by ring
      have hk : us % 100 < 100 := Nat.mod_lt _ (by norm_num)
      obtain ⟨t1, t2⟩ := smalls_table (us % 100) hk
      simp only [formatBitsLoop, hus, if_true]
      obtain ⟨i1, i2, i3⟩ := ih (us / 100) (byteAt smallsString (us % 100 * 2) ::
        byteAt smallsString (us % 100 * 2 + 1) :: a) hlt
      refine ⟨i1, fun _ => i2 (by omega), ?_⟩
      rw [i3, revDigits_step us hus, t1, t2]
      simp
    · simp only [formatBitsLoop, hus, if_false]
      exact ⟨by omega, fun h => h, trivial⟩

theorem revDigits_small (us : Nat) (h0 : 0 < us) (h : us < 100) :
    (Nat.digits 10 us).reverse =
      if 10 ≤ us then [us / 10, us % 10] else [us % 10] := by
  by_cases h10 : 10 ≤ us
  · have h2 : 0 < us / 10 := by omega
    have h3 : us / 10 / 10 = 0 := by omega
    have h4 : us / 10 % 10 = us / 10 := by omega
    rw [Nat.digits_def' (by norm_num) h0, Nat.digits_def' (by norm_num) h2, h3, h4]
    simp [h10]
  · have h3 : us / 10 = 0 := by omega
    rw [Nat.digits_def' (by norm_num) h0, h3]
    simp [h10]

theorem formatBits_pos (u : Nat) (h : u < 2 ^ 64) :
    formatBits u false = (decDigits u).map digitByte := by
  have hlt : u < 100 ^ (32 + 1) := lt_of_lt_of_le h (by norm_num)
  obtain ⟨i1, i2, i3⟩ := formatBitsLoop_spec 32 u [] hlt
  simp only [formatBits, Bool.false_eq_true, if_false]
  generalize formatBitsLoop 32 u [] = r at i1 i2 i3
  obtain ⟨us, a⟩ := r
  simp only at i1 i2 i3 ⊢
  obtain ⟨t1, t2⟩ := smalls_table us i1
  rw [t1, t2]
  by_cases hu : u = 0
  · subst hu
    simp at i3
    obtain ⟨e1, e2⟩ := i3
    have e0 : us = 0 := Nat.digits_eq_nil_iff_eq_zero.mp e1
    subst e0 e2
    simp [decDigits]
  · have hus := i2 (by omega)
    rw [revDigits_small us hus i1] at i3
    simp only [decDigits, hu, if_false]
    rw [List.append_nil] at i3
    rw [← i3]
    by_cases h10 : 10 ≤ us <;> simp [h10]

theorem formatBits_neg (u : Nat) (h0 : 0 < u) (h : u < 2 ^ 64) :
    formatBits u true = 45 :: (decDigits (2 ^ 64 - u)).map digitByte := by
  have h1 : (2 ^ 64 - u) % 2 ^ 64 = 2 ^ 64 - u := by omega
  have h2 := formatBits_pos (2 ^ 64 - u) (by omega)
  simp only [formatBits, Bool.false_eq_true, if_false] at h2
  simp only [formatBits, if_true, h1]
  rw [h2]

theorem small_eq (i : Nat) (h : i < 100) : small i = (decDigits i).map digitByte := by
  obtain ⟨t1, t2⟩ := smalls_table i h
  by_cases h10 : i < 10
  · simp only [small, h10, if_true, digits_table i h10]
    by_cases h0 : i = 0
    · simp [decDigits, h0]
    · have := revDigits_small i (by omega) h
      simp only [decDigits, h0, if_false, this]
      have : ¬ 10 ≤ i := by omega
      have e : i % 10 = i := by omega
      simp [this, e]
  · have h0 : i ≠ 0 := by omega
    have := revDigits_small i (by omega) h
    simp only [small, h10, if_false, decDigits, h0, this, t1, t2]
    have : 10 ≤ i := by omega
    simp [this]

theorem FormatUint_eq (n : Nat) (h : n < 2 ^ 64) : FormatUint n = (decDigits n).map digitByte := by
  unfold FormatUint
  split
  · exact small_eq n (by assumption)
  · exact formatBits_pos n h

theorem FormatInt_eq (i : Int) (h1 : -(2 : Int) ^ 63 ≤ i) (h2 : i < 2 ^ 63) :
    FormatInt i = (if i < 0 then [45] else []) ++ (decDigits i.natAbs).map digitByte := by
  unfold FormatInt
  by_cases hs : 0 ≤ i ∧ i < nSmalls
  · have hn : ¬ i < 0 := by omega
    have ht : i.toNat = i.natAbs := by omega
    simp only [hs, and_self, if_true, hn, if_false, List.nil_append, ht]
    exact small_eq _ (by simp only [nSmalls] at hs; omega)
  · simp only [hs, if_false]
    by_cases hn : i < 0
    · have hw : wrapUint64 i = 2 ^ 64 - i.natAbs := by unfold wrapUint64; omega
      have := formatBits_neg (wrapUint64 i) (by omega) (by omega)
      have e : 2 ^ 64 - wrapUint64 i = i.natAbs := by omega
      rw [e] at this
      simp only [hn, decide_True, if_true, this]
      rfl
    · have hw : wrapUint64 i = i.natAbs := by unfold wrapUint64; omega
      simp only [hn, decide_False, if_false, List.nil_append, hw]
      exact formatBits_pos _ (by omega)

theorem decDigits_isDecimal (n : Int) :
    IsDecimalOf ((if n < 0 then [45] else []) ++ (decDigits n.natAbs).map digitByte) n := by
  refine ⟨decDigits n.natAbs, ?_, ?_, ?_, ?_, rfl⟩
  · unfold decDigits
    split
    · simp
    · rename_i hm
      simpa [Nat.digits_eq_nil_iff_eq_zero] using hm
  · intro d hd
    unfold decDigits at hd
    split at hd
    · simp at hd; omega
    · exact Nat.digits_lt_base (by norm_num) (List.mem_reverse.mp hd)
  · intro hh
    unfold decDigits at hh ⊢
    split
    · rfl
    · rename_i hm
      exfalso
      have hne := Nat.getLast_digit_ne_zero 10 hm
      rw [if_neg hm, List.head?_reverse] at hh
      rw [List.getLast?_eq_getLast _ (by simpa [Nat.digits_eq_nil_iff_eq_zero] using hm)] at hh
      exact hne (by simpa using hh)
  · unfold decDigits decimalValue
    split
    · rename_i hm; simp [hm]
    · rw [List.foldl_reverse]
      have := Nat.ofDigits_digits 10 n.natAbs
      rw [Nat.ofDigits_eq_foldr] at this
      simpa [Nat.mul_comm, Nat.add_comm] using this

theorem wrapInt64_of_range (x : Int) (h1 : -(2 : Int) ^ 63 ≤ x) (h2 : x < 2 ^ 63) :
    wrapInt64 x = x := by
  unfold wrapInt64
  omega

theorem wrapUint64_of_range (x : Nat) (h : x < 2 ^ 64) : wrapUint64 x = x := by
  unfold wrapUint64
  omega

theorem FormatInt_isDecimal (i : Int) (h1 : -(2 : Int) ^ 63 ≤ i) (h2 : i < 2 ^ 63) :
    IsDecimalOf (FormatInt i) i := by
  rw [FormatInt_eq i h1 h2]
  exact decDigits_isDecimal i

theorem FormatUint_isDecimal (n : Nat) (h : n < 2 ^ 64) : IsDecimalOf (FormatUint n) n := by
  rw [FormatUint_eq n h]
  have := decDigits_isDecimal (n : Int)
  simpa using this

/-- C4, refuted as stated: the 8-bit integer 5, stored by `SetValue`, is
returned by `Get`, but `GetAsString` returns the empty string for it, which is
not the decimal representation of 5. -/
theorem getAsString_int8_is_empty :
    SetValue { m := some [] } (str "limits") (str "retries") (Value.int8 5) =
      Except.ok narrowStore ∧
    (Value.int8 5).InRange ∧ (Value.int8 5).intValue = some 5 ∧
    Get narrowStore (str "limits") (str "retries") = Except.ok (Value.int8 5) ∧
    (∀ env, GetAsString env narrowStore (str "limits") (str "retries") = Except.ok []) ∧
    ¬ IsDecimalOf [] 5 := by
  refine ⟨rfl, by simp [Value.InRange], rfl, rfl, fun _ => rfl, ?_⟩
  rintro ⟨ds, hne, -, -, -, hs⟩
  simp at hs
  exact hne hs

/-- C4, amended: for every integer value `n` of dynamic type int, int32, int64,
uint32 or uint64 stored at a section and key, `GetAsString` returns the decimal
representation of `n`: no leading zeros, and a leading minus sign exactly when
`n` is negative. -/
theorem getAsString_integer (env : Env) (c : Config) (sec key : GoString) (v : Value) (n : Int)
    (hg : Get c sec key = Except.ok v) (hty : v.IsSupportedInt) (hr : v.InRange)
    (hn : v.intValue = some n) :
    ∃ out, GetAsString env c sec key = Except.ok out ∧ IsDecimalOf out n := by
  cases v <;> simp only [Value.IsSupportedInt] at hty <;>
    simp only [Value.intValue, Option.some.injEq] at hn <;>
    simp only [Value.InRange] at hr <;> subst hn <;>
    simp only [GetAsString, hg]
  · exact ⟨_, rfl, by
      rw [Itoa, wrapInt64_of_range _ hr.1 hr.2]; exact FormatInt_isDecimal _ hr.1 hr.2⟩
  · exact ⟨_, rfl, by
      rw [wrapInt64_of_range _ (by omega) (by omega)]
      exact FormatInt_isDecimal _ (by omega) (by omega)⟩
  · exact ⟨_, rfl, FormatInt_isDecimal _ hr.1 hr.2⟩
  · exact ⟨_, rfl, by
      rw [wrapUint64_of_range _ (by omega)]; exact FormatUint_isDecimal _ (by omega)⟩
  · exact ⟨_, rfl, FormatUint_isDecimal _ hr⟩

/-- C4, amended, at the int64 -42 stored under "limits"/"offset". -/
theorem getAsString_integer_witness :
    ∃ out, GetAsString plainEnv
        { m := some [(str "limits", Value.map (some [(str "offset", Value.int64 (-42))]))] }
        (str "limits") (str "offset") = Except.ok out ∧ IsDecimalOf out (-42) :=
  getAsString_integer _ _ (str "limits") (str "offset") (Value.int64 (-42)) (-42) rfl trivial
    (by simp [Value.InRange]) rfl

/-! ## The typed getters -/

theorem get_ok_of_sections (c : Config) (sec key : GoString) (hs : c.SectionsAreMappings) :
    ∃ v, Get c sec key = Except.ok v := by
  cases hm : c.m with
  | none => exact ⟨_, get_of_no_section c sec key (by simp [hm])⟩
  | some kvs =>
    cases hl : lookup sec kvs with
    | none =>
      refine ⟨_, get_of_no_section c sec key ?_⟩
      intro kvs' h
      rw [hm] at h
      cases h
      exact hl
    | some e =>
      have he := hs kvs sec e hm hl
      cases e with
      | map m =>
        cases m with
        | none => simp [Value.IsKeyMapping] at he
        | some entries => exact ⟨_, get_of_section c kvs entries sec key hm hl⟩
      | _ => simp [Value.IsKeyMapping] at he

theorem contains_coordinate (before sec key : GoString) :
    Contains (before ++ sec ++ str "." ++ key) (sec ++ str "." ++ key) :=
  ⟨before, [], by simp [List.append_assoc]⟩

/-- C5, refuted as stated: for the 8-bit integer 5, stored by `SetValue` and
returned by `Get`, `GetAsInt` returns 0 and a conversion error instead of 5
and no error. -/
theorem getAsInt_int8_is_error :
    (Value.int8 5).InRange ∧ (Value.int8 5).intValue = some 5 ∧
    Get narrowStore (str "limits") (str "retries") = Except.ok (Value.int8 5) ∧
    (∀ env, GetAsInt env narrowStore (str "limits") (str "retries") =
      Except.ok (0, some (GoError.fundamental (str "convert to int in: limits.retries")))) ∧
    ∀ env, GetAsInt env narrowStore (str "limits") (str "retries") ≠
      Except.ok (wrapInt64 5, none) := by
  refine ⟨by simp [Value.InRange], rfl, rfl, fun _ => rfl, fun env h => ?_⟩
  have h' : GetAsInt env narrowStore (str "limits") (str "retries") =
      Except.ok (0, some (GoError.fundamental (str "convert to int in: limits.retries"))) := rfl
  rw [h'] at h
  cases h

/-- C5, amended: for every integer value `n` of dynamic type int, int32, int64,
uint32 or uint64 stored at a section and key, `GetAsInt` returns `n` converted
to the platform int type, with no error: `n` reduced modulo 2^64 into the
signed range, which is `n` itself when `n` fits. -/
theorem getAsInt_integer (env : Env) (c : Config) (sec key : GoString) (v : Value) (n : Int)
    (hg : Get c sec key = Except.ok v) (hty : v.IsSupportedInt) (hr : v.InRange)
    (hn : v.intValue = some n) :
    GetAsInt env c sec key = Except.ok (wrapInt64 n, none) ∧
    (-(2 : Int) ^ 63 ≤ n ∧ n < 2 ^ 63 → wrapInt64 n = n) := by
  refine ⟨?_, fun h => wrapInt64_of_range n h.1 h.2⟩
  cases v <;> simp only [Value.IsSupportedInt] at hty <;>
    simp only [Value.intValue, Option.some.injEq] at hn <;>
    simp only [Value.InRange] at hr <;> subst hn <;>
    simp only [GetAsInt, hg]
  rw [wrapInt64_of_range _ hr.1 hr.2]

/-- C5, amended, at the uint64 2^63 of `jobStore`, which does not fit. -/
theorem getAsInt_integer_witness :
    GetAsInt plainEnv jobStore (str "job") (str "count") =
      Except.ok (wrapInt64 ((2 ^ 63 : Nat) : Int), none) ∧
    (-(2 : Int) ^ 63 ≤ ((2 ^ 63 : Nat) : Int) ∧ ((2 ^ 63 : Nat) : Int) < 2 ^ 63 →
      wrapInt64 ((2 ^ 63 : Nat) : Int) = ((2 ^ 63 : Nat) : Int)) :=
  getAsInt_integer plainEnv jobStore (str "job") (str "count") (Value.uint64 (2 ^ 63)) _ rfl
    trivial (by simp [Value.InRange]) rfl

/-- C6: on a store whose section entries are key-mappings, `GetAsString`
returns a string without a fault for every section and key, and the string is
empty when the value is absent, is null, or has a dynamic type other than
string, integer, boolean, float, duration or timestamp. -/
theorem getAsString_never_fails (env : Env) (c : Config) (sec key : GoString)
    (hs : c.SectionsAreMappings) :
    ∃ out, GetAsString env c sec key = Except.ok out ∧
      ∀ v, Get c sec key = Except.ok v → ¬ v.IsConvertible → out = [] := by
  obtain ⟨v, hg⟩ := get_ok_of_sections c sec key hs
  cases v <;> simp only [GetAsString, hg] <;> refine ⟨_, rfl, ?_⟩ <;> intro v' hv' hk <;>
    cases hv' <;> first | rfl | exact absurd (by simp [Value.IsConvertible, Value.kind]) hk

/-- C6 on `serverStore`, at the key "note" whose value is null. -/
theorem getAsString_never_fails_witness :
    ∃ out, GetAsString plainEnv serverStore (str "server") (str "note") = Except.ok out ∧
      ∀ v, Get serverStore (str "server") (str "note") = Except.ok v → ¬ v.IsConvertible →
        out = [] :=
  getAsString_never_fails plainEnv serverStore (str "server") (str "note") serverStore_sections

/-- C7: when `Get` returns absent, `GetAsInt` returns 0 with a conversion
error and `GetAsFloat64` returns 0 with a conversion error, and the message of
each error contains the coordinate section + "." + key. -/
theorem typed_getters_on_absent (env : Env) (c : Config) (sec key : GoString)
    (hg : Get c sec key = Except.ok absent) :
    (∃ e, GetAsInt env c sec key = Except.ok (0, some e) ∧
      Contains (e.Error env) (sec ++ str "." ++ key)) ∧
    (∃ e, GetAsFloat64 env c sec key = Except.ok (0, some e) ∧
      Contains (e.Error env) (sec ++ str "." ++ key)) := by
  constructor
  · exact ⟨GoError.fundamental (str "convert to int in: " ++ sec ++ str "." ++ key),
      by simp only [GetAsInt, hg, absent], contains_coordinate _ sec key⟩
  · exact ⟨GoError.fundamental (str "convert to float64 in: " ++ sec ++ str "." ++ key),
      by simp only [GetAsFloat64, hg, absent], contains_coordinate _ sec key⟩

/-- C7 on `serverStore`, at the missing key "port". -/
theorem typed_getters_on_absent_witness :
    (∃ e, GetAsInt plainEnv serverStore (str "server") (str "port") = Except.ok (0, some e) ∧
      Contains (e.Error plainEnv) (str "server" ++ str "." ++ str "port")) ∧
    (∃ e, GetAsFloat64 plainEnv serverStore (str "server") (str "port") =
        Except.ok (0, some e) ∧
      Contains (e.Error plainEnv) (str "server" ++ str "." ++ str "port")) :=
  typed_getters_on_absent plainEnv serverStore (str "server") (str "port") rfl

/-- C8: for a stored value that is an integer of any width, a boolean, a
duration or a timestamp, `GetAsFloat64` returns 0 with a conversion error whose
message contains section + "." + key; and when it returns no error the value
is a string, a 32-bit float or a 64-bit float. -/
theorem getAsFloat64_unsupported (env : Env) (c : Config) (sec key : GoString) (v : Value)
    (hg : Get c sec key = Except.ok v) :
    (v.kind = Kind.integer ∨ v.kind = Kind.boolean ∨ v.kind = Kind.duration ∨
        v.kind = Kind.timestamp →
      ∃ e, GetAsFloat64 env c sec key = Except.ok (0, some e) ∧
        Contains (e.Error env) (sec ++ str "." ++ key)) ∧
    (∀ r, GetAsFloat64 env c sec key = Except.ok (r, none) →
      v.kind = Kind.string ∨ v.kind = Kind.float32 ∨ v.kind = Kind.float64) := by
  constructor
  · intro hk
    cases v <;> simp only [Value.kind, reduceCtorEq, or_self] at hk <;>
      exact ⟨GoError.fundamental (str "convert to float64 in: " ++ sec ++ str "." ++ key),
        by simp only [GetAsFloat64, hg], contains_coordinate _ sec key⟩
  · intro r hr
    cases v <;> simp only [GetAsFloat64, hg] at hr <;>
      first
      | (simp [Value.kind]; done)
      | (exfalso; injection hr with hr; injection hr with _ hr; cases hr)

/-- C8 on `serverStore`, at the key "debug" whose value is the boolean false. -/
theorem getAsFloat64_unsupported_witness :
    (∃ e, GetAsFloat64 plainEnv serverStore (str "server") (str "debug") =
        Except.ok (0, some e) ∧
      Contains (e.Error plainEnv) (str "server" ++ str "." ++ str "debug")) ∧
    (∀ r, GetAsFloat64 plainEnv serverStore (str "server") (str "debug") = Except.ok (r, none) →
      (Value.bool false).kind = Kind.string ∨ (Value.bool false).kind = Kind.float32 ∨
        (Value.bool false).kind = Kind.float64) :=
  ⟨(getAsFloat64_unsupported plainEnv serverStore (str "server") (str "debug")
      (Value.bool false) rfl).1 (Or.inr (Or.inl rfl)),
    (getAsFloat64_unsupported plainEnv serverStore (str "server") (str "debug")
      (Value.bool false) rfl).2⟩

/-- C9: for a stored value that is a duration or a timestamp, `GetAsInt`
returns 0 with a conversion error whose message contains section + "." + key,
whatever the 64-bit integer underlying the duration. -/
theorem getAsInt_duration_timestamp (env : Env) (c : Config) (sec key : GoString) (v : Value)
    (hg : Get c sec key = Except.ok v)
    (hk : v.kind = Kind.duration ∨ v.kind = Kind.timestamp) :
    ∃ e, GetAsInt env c sec key = Except.ok (0, some e) ∧
      Contains (e.Error env) (sec ++ str "." ++ key) := by
  cases v <;> simp only [Value.kind, reduceCtorEq, or_self] at hk <;>
    exact ⟨GoError.fundamental (str "convert to int in: " ++ sec ++ str "." ++ key),
      by simp only [GetAsInt, hg], contains_coordinate _ sec key⟩

/-- C9 on `jobStore`, at the duration of 90 seconds. -/
theorem getAsInt_duration_timestamp_witness :
    ∃ e, GetAsInt plainEnv jobStore (str "job") (str "timeout") = Except.ok (0, some e) ∧
      Contains (e.Error plainEnv) (str "job" ++ str "." ++ str "timeout") :=
  getAsInt_duration_timestamp plainEnv jobStore (str "job") (str "timeout")
    (Value.duration 90000000000) rfl (Or.inl rfl)

/-! ## Parsing integers -/


theorem literalFrom_cons (n : Nat) (b : UInt8) (ds : GoString) :
    literalFrom n (b :: ds) = literalFrom (n * 10 + (b.toNat - 48)) ds := rfl

theorem literalFrom_ge (ds : GoString) : ∀ n : Nat, n ≤ literalFrom n ds := by
  induction ds with
  | nil => intro n; exact le_refl _
  | cons b rest ih =>
    intro n
    rw [literalFrom_cons]
    exact le_trans (by omega) (ih _)

theorem not_all_digits_cons (b : UInt8) (rest : GoString) (hb : IsDigitByte b)
    (h : ¬ ∀ x ∈ b :: rest, IsDigitByte x) : ¬ ∀ x ∈ rest, IsDigitByte x := by
  intro hall
  apply h
  intro x hx
  rcases List.mem_cons.mp hx with rfl | hx
  · exact hb
  · exact hall x hx

theorem atoiLoop_digits (ds : GoString) : ∀ n : Nat, (∀ b ∈ ds, IsDigitByte b) →
    (n + 1) * 10 ^ ds.length ≤ 2 ^ 63 →
    atoiLoop ds n = some ((literalFrom n ds : Nat) : Int) := by
  induction ds with
  | nil => intro n _ _; simp [atoiLoop, literalFrom]
  | cons b rest ih =>
    intro n hd hb
    have hbd := hd b (List.mem_cons_self _ _)
    simp only [IsDigitByte] at hbd
    have hlt := UInt8.toNat_lt b
    have e : (b.toNat + 256 - 48) % 256 = b.toNat - 48 := by omega
    have h9 : ¬ 9 < b.toNat - 48 := by omega
    simp only [List.length_cons, pow_succ] at hb
    have hpos : 0 < 10 ^ rest.length := Nat.pow_pos (by norm_num)
    have hb' : (n * 10 + (b.toNat - 48) + 1) * 10 ^ rest.length ≤ 2 ^ 63 := by
      calc (n * 10 + (b.toNat - 48) + 1) * 10 ^ rest.length
          ≤ ((n + 1) * 10) * 10 ^ rest.length := Nat.mul_le_mul_right _ (by omega)
        _ = (n + 1) * (10 ^ rest.length * 10) := by ring
        _ ≤ 2 ^ 63 := hb
    have hsmall : n * 10 + (b.toNat - 48) < 2 ^ 63 := by
      have : (n * 10 + (b.toNat - 48) + 1) * 1 ≤ (n * 10 + (b.toNat - 48) + 1) * 10 ^ rest.length :=
        Nat.mul_le_mul_left _ hpos
      omega
    have hw : wrapInt64 ((n : Int) * 10 + ((b.toNat - 48 : Nat) : Int)) =
        ((n * 10 + (b.toNat - 48) : Nat) : Int) := by
      unfold wrapInt64
      omega
    simp only [atoiLoop, e, h9, if_false, literalFrom_cons, hw]
    exact ih _ (fun x hx => hd x (List.mem_cons_of_mem _ hx)) hb'

theorem atoiLoop_nondigit (s : GoString) : ∀ n : Int, (¬ ∀ b ∈ s, IsDigitByte b) →
    atoiLoop s n = none := by
  induction s with
  | nil => intro n h; simp at h
  | cons b rest ih =>
    intro n h
    have hlt := UInt8.toNat_lt b
    by_cases hb : IsDigitByte b
    · have hr := not_all_digits_cons b rest hb h
      simp only [IsDigitByte] at hb
      have h9 : ¬ 9 < (b.toNat + 256 - 48) % 256 := by omega
      simp only [atoiLoop, h9, if_false]
      exact ih _ hr
    · simp only [IsDigitByte] at hb
      have h9 : 9 < (b.toNat + 256 - 48) % 256 := by omega
      simp only [atoiLoop, h9, if_true]

theorem digitValue_digit (b : UInt8) (hb : IsDigitByte b) :
    digitValue b = some (b.toNat - 48) := by
  simp only [IsDigitByte] at hb
  simp [digitValue, hb]

theorem digitValue_nondigit (b : UInt8) (hb : ¬ IsDigitByte b) :
    digitValue b = none ∨ ∃ d, 10 ≤ d ∧ digitValue b = some d := by
  simp only [IsDigitByte] at hb
  unfold digitValue
  rw [if_neg hb]
  split
  · exact Or.inr ⟨_, by omega, rfl⟩
  · exact Or.inl rfl

theorem parseUintLoop_digits (s0 : GoString) (M C : Nat) (hM : M = 2 ^ 64 - 1)
    (hC : C = (2 ^ 64 - 1) / 10 + 1) (ds : GoString) :
    ∀ n : Nat, n < 2 ^ 64 → (∀ b ∈ ds, IsDigitByte b) →
    parseUintLoop s0 M C ds n =
      if literalFrom n ds < 2 ^ 64 then (literalFrom n ds, none)
      else (M, some (rangeError (str "ParseUint") s0)) := by
  induction ds with
  | nil =>
    intro n hn _
    simp only [parseUintLoop, literalFrom, List.foldl_nil]
    rw [if_pos hn]
  | cons b rest ih =>
    intro n hn hd
    have hbd := hd b (List.mem_cons_self _ _)
    have hrest : ∀ x ∈ rest, IsDigitByte x := fun x hx => hd x (List.mem_cons_of_mem _ hx)
    rw [literalFrom_cons]
    have hge := literalFrom_ge rest (n * 10 + (b.toNat - 48))
    simp only [parseUintLoop, digitValue_digit b hbd]
    simp only [IsDigitByte] at hbd
    have h10 : ¬ 10 ≤ b.toNat - 48 := by omega
    simp only [h10, if_false]
    by_cases hc : C ≤ n
    · have : ¬ literalFrom (n * 10 + (b.toNat - 48)) rest < 2 ^ 64 := by omega
      simp only [hc, if_true, this, if_false]
    · simp only [hc, if_false]
      have e10 : n * 10 % 2 ^ 64 = n * 10 := by omega
      rw [e10]
      by_cases hov : n * 10 + (b.toNat - 48) < 2 ^ 64
      · have e1 : (n * 10 + (b.toNat - 48)) % 2 ^ 64 = n * 10 + (b.toNat - 48) := by omega
        rw [e1]
        have hno : ¬ (n * 10 + (b.toNat - 48) < n * 10 ∨ M < n * 10 + (b.toNat - 48)) := by omega
        simp only [hno, if_false]
        exact ih _ hov hrest
      · have hyes : (n * 10 + (b.toNat - 48)) % 2 ^ 64 < n * 10 ∨
            M < (n * 10 + (b.toNat - 48)) % 2 ^ 64 := by omega
        have : ¬ literalFrom (n * 10 + (b.toNat - 48)) rest < 2 ^ 64 := by omega
        simp only [hyes, if_true, this, if_false]

theorem parseUintLoop_nondigit (s0 : GoString) (M C : Nat) (s : GoString) :
    ∀ n : Nat, (¬ ∀ b ∈ s, IsDigitByte b) →
    parseUintLoop s0 M C s n = (0, some (syntaxError (str "ParseUint") s0)) ∨
    parseUintLoop s0 M C s n = (M, some (rangeError (str "ParseUint") s0)) := by
  induction s with
  | nil => intro n h; simp at h
  | cons b rest ih =>
    intro n h
    by_cases hb : IsDigitByte b
    · have hr := not_all_digits_cons b rest hb h
      simp only [parseUintLoop, digitValue_digit b hb]
      split
      · exact Or.inl rfl
      · split
        · exact Or.inr rfl
        · split
          · exact Or.inr rfl
          · exact ih _ hr
    · rcases digitValue_nondigit b hb with h0 | ⟨d, hd, h0⟩
      · simp only [parseUintLoop, h0]
        exact Or.inl trivial
      · simp only [parseUintLoop, h0, hd, if_true]
        exact Or.inl trivial


theorem ParseUint_digits (ds : GoString) (hne : ds ≠ []) (hd : ∀ b ∈ ds, IsDigitByte b) :
    ParseUint ds 0 =
      if literalValue ds < 2 ^ 64 then (literalValue ds, none)
      else (2 ^ 64 - 1, some (rangeError (str "ParseUint") ds)) := by
  simp only [ParseUint, hne, if_false, intSize, if_true]
  exact parseUintLoop_digits ds _ _ rfl rfl ds 0 (by norm_num) hd

theorem ParseUint_nondigit (s : GoString) (h : ¬ ∀ b ∈ s, IsDigitByte b) :
    ParseUint s 0 = (0, some (syntaxError (str "ParseUint") s)) ∨
    ParseUint s 0 = (2 ^ 64 - 1, some (rangeError (str "ParseUint") s)) := by
  have hne : s ≠ [] := by
    rintro rfl
    simp at h
  simp only [ParseUint, hne, if_false, intSize, if_true]
  exact parseUintLoop_nondigit s _ _ s 0 h


theorem signSplit_exists (s0 : GoString) : ∃ signed neg body, SignSplit s0 signed neg body := by
  cases s0 with
  | nil => exact ⟨false, false, [], Or.inr (Or.inr ⟨rfl, rfl, rfl, by simp, by simp⟩)⟩
  | cons c rest =>
    by_cases h1 : c = 43
    · exact ⟨true, false, rest, Or.inl ⟨by rw [h1], rfl, rfl⟩⟩
    · by_cases h2 : c = 45
      · exact ⟨true, true, rest, Or.inr (Or.inl ⟨by rw [h2], rfl, rfl⟩)⟩
      · exact ⟨false, false, c :: rest, Or.inr (Or.inr ⟨rfl, rfl, rfl, by simpa using h1,
          by simpa using h2⟩)⟩

theorem Atoi_fast (s0 body : GoString) (signed neg : Bool) (hsp : SignSplit s0 signed neg body)
    (h0 : 0 < s0.length) (h19 : s0.length < 19) :
    Atoi s0 =
      if signed = true ∧ body.length < 1 then (0, some (syntaxError (str "Atoi") s0))
      else
        match atoiLoop body 0 with
        | none => (0, some (syntaxError (str "Atoi") s0))
        | some n => (if neg = true then wrapInt64 (-n) else n, none) := by
  rcases hsp with ⟨rfl, rfl, rfl⟩ | ⟨rfl, rfl, rfl⟩ | ⟨rfl, rfl, rfl, h1, h2⟩
  · simp only [Atoi, intSize, h0, h19]
    simp
  · simp only [Atoi, intSize, h0, h19]
    simp
  · simp only [Atoi, intSize, h0, h19]
    simp [h1, h2]

theorem ParseInt_split (s0 body : GoString) (signed neg : Bool)
    (hsp : SignSplit s0 signed neg body) (hne : s0 ≠ []) :
    ParseInt s0 0 =
      match (ParseUint body 0).2 with
      | some (GoError.numError _ _ NumErr.ErrSyntax) =>
        (0, some (GoError.numError (str "ParseInt") s0 NumErr.ErrSyntax))
      | _ =>
        if neg = false ∧ 2 ^ 63 ≤ (ParseUint body 0).1 then
          (wrapInt64 (2 ^ 63 - 1), some (rangeError (str "ParseInt") s0))
        else if neg = true ∧ 2 ^ 63 < (ParseUint body 0).1 then
          (wrapInt64 (-(wrapInt64 (2 ^ 63))), some (rangeError (str "ParseInt") s0))
        else
          (if neg = true then wrapInt64 (-(wrapInt64 (ParseUint body 0).1))
            else wrapInt64 (ParseUint body 0).1, none) := by
  rcases hsp with ⟨rfl, rfl, rfl⟩ | ⟨rfl, rfl, rfl⟩ | ⟨rfl, rfl, rfl, h1, h2⟩
  · simp [ParseInt, intSize]
  · simp [ParseInt, intSize]
  · simp [ParseInt, intSize, hne, h1, h2]


theorem Atoi_slow (s0 : GoString) (h : ¬ (0 < s0.length ∧ s0.length < 19)) :
    Atoi s0 = (wrapInt64 (ParseInt s0 0).1,
      match (ParseInt s0 0).2 with
      | some (GoError.numError _ num e) => some (GoError.numError (str "Atoi") num e)
      | other => other) := by
  simp only [Atoi, intSize]
  rw [if_neg (by simpa using h)]

theorem literalFrom_lt (ds : GoString) : ∀ n : Nat, (∀ b ∈ ds, IsDigitByte b) →
    literalFrom n ds + 1 ≤ (n + 1) * 10 ^ ds.length := by
  induction ds with
  | nil => intro n _; simp [literalFrom]
  | cons b rest ih =>
    intro n hd
    have hbd := hd b (List.mem_cons_self _ _)
    simp only [IsDigitByte] at hbd
    rw [literalFrom_cons]
    calc literalFrom (n * 10 + (b.toNat - 48)) rest + 1
        ≤ (n * 10 + (b.toNat - 48) + 1) * 10 ^ rest.length :=
          ih _ (fun x hx => hd x (List.mem_cons_of_mem _ hx))
      _ ≤ ((n + 1) * 10) * 10 ^ rest.length := Nat.mul_le_mul_right _ (by omega)
      _ = (n + 1) * 10 ^ (b :: rest).length := by rw [List.length_cons, pow_succ]; ring

theorem signSplit_length (s0 body : GoString) (signed neg : Bool)
    (hsp : SignSplit s0 signed neg body) : body.length ≤ s0.length := by
  rcases hsp with ⟨rfl, -, -⟩ | ⟨rfl, -, -⟩ | ⟨rfl, -⟩ <;> simp

theorem literalValue_lt_of_short (body : GoString) (hd : ∀ b ∈ body, IsDigitByte b)
    (h : body.length < 19) : literalValue body < 10 ^ 18 := by
  have h1 := literalFrom_lt body 0 hd
  have h2 : 10 ^ body.length ≤ 10 ^ 18 := Nat.pow_le_pow_right (by norm_num) (by omega)
  unfold literalValue
  omega

theorem Atoi_ok (s0 body : GoString) (signed neg : Bool) (hsp : SignSplit s0 signed neg body)
    (hne : body ≠ []) (hd : ∀ b ∈ body, IsDigitByte b)
    (hr : if neg = true then literalValue body ≤ 2 ^ 63 else literalValue body < 2 ^ 63) :
    Atoi s0 = (if neg = true then -(literalValue body : Int) else literalValue body, none) := by
  have hlen := signSplit_length s0 body signed neg hsp
  have hbl : 0 < body.length := List.length_pos.mpr hne
  by_cases hfast : 0 < s0.length ∧ s0.length < 19
  · rw [Atoi_fast s0 body signed neg hsp hfast.1 hfast.2]
    have hc : ¬ (signed = true ∧ body.length < 1) := by omega
    have hb : (0 + 1) * 10 ^ body.length ≤ 2 ^ 63 := by
      have : 10 ^ body.length ≤ 10 ^ 18 := Nat.pow_le_pow_right (by norm_num) (by omega)
      omega
    have hloop := atoiLoop_digits body 0 hd hb
    simp only [Nat.cast_zero] at hloop
    rw [if_neg hc, hloop]
    cases neg with
    | false => simp [literalValue]
    | true =>
      simp only [if_true] at hr ⊢
      have : wrapInt64 (-((literalFrom 0 body : Nat) : Int)) = -((literalFrom 0 body : Nat) : Int) := by
        unfold literalValue at hr
        unfold wrapInt64
        omega
      rw [this]
      rfl
  · have hs0 : s0 ≠ [] := by
      intro h
      subst h
      simp at hlen
      exact hne hlen
    have hV : literalValue body < 2 ^ 64 := by
      cases neg <;> simp at hr <;> omega
    rw [Atoi_slow s0 hfast, ParseInt_split s0 body signed neg hsp hs0, ParseUint_digits body hne hd,
      if_pos hV]
    cases neg with
    | false =>
      simp only [Bool.false_eq_true, if_false] at hr
      have h1 : ¬ 9223372036854775808 ≤ literalValue body := by omega
      have hw : wrapInt64 (literalValue body : Int) = literalValue body := by
        unfold wrapInt64; omega
      simp [h1, hw]
    | true =>
      simp only [if_true] at hr
      have h1 : ¬ 9223372036854775808 < literalValue body := by omega
      have hw : wrapInt64 (-(wrapInt64 (literalValue body : Int))) = -(literalValue body : Int) := by
        unfold wrapInt64; omega
      have hw2 : wrapInt64 (-(literalValue body : Int)) = -(literalValue body : Int) := by
        unfold wrapInt64; omega
      simp [h1, hw, hw2]


theorem Atoi_slow_of_error (s0 : GoString) (h : ¬ (0 < s0.length ∧ s0.length < 19)) (r : Int)
    (fn : GoString) (e : NumErr) (hp : ParseInt s0 0 = (r, some (GoError.numError fn s0 e))) :
    ∃ r' e', Atoi s0 = (r', some (GoError.numError (str "Atoi") s0 e')) := by
  rw [Atoi_slow s0 h, hp]
  exact ⟨_, _, rfl⟩

theorem ParseInt_error (s0 body : GoString) (signed neg : Bool)
    (hsp : SignSplit s0 signed neg body) (hs0 : s0 ≠ [])
    (h : (body = [] ∨ ¬ ∀ b ∈ body, IsDigitByte b) ∨
      if neg = true then 2 ^ 63 < literalValue body else 2 ^ 63 ≤ literalValue body) :
    ∃ r fn e, ParseInt s0 0 = (r, some (GoError.numError fn s0 e)) := by
  rw [ParseInt_split s0 body signed neg hsp hs0]
  have key : ParseUint body 0 = (0, some (syntaxError (str "ParseUint") body)) ∨
      (∃ e, ParseUint body 0 = (2 ^ 64 - 1, e)) ∨
      (ParseUint body 0 = (literalValue body, none) ∧
        if neg = true then 2 ^ 63 < literalValue body else 2 ^ 63 ≤ literalValue body) := by
    by_cases hd : ∀ b ∈ body, IsDigitByte b
    · by_cases hne : body = []
      · subst hne
        exact Or.inl rfl
      · rw [ParseUint_digits body hne hd]
        by_cases hV : literalValue body < 2 ^ 64
        · rw [if_pos hV]
          rcases h with (h | h) | h
          · exact absurd h hne
          · exact absurd hd h
          · exact Or.inr (Or.inr ⟨rfl, h⟩)
        · rw [if_neg hV]
          exact Or.inr (Or.inl ⟨_, rfl⟩)
    · rcases ParseUint_nondigit body hd with h1 | h1
      · exact Or.inl h1
      · exact Or.inr (Or.inl ⟨_, h1⟩)
  rcases key with h1 | ⟨e, h1⟩ | ⟨h1, h2⟩
  · rw [h1]
    exact ⟨_, _, _, rfl⟩
  · rw [h1]
    cases neg with
    | false =>
      cases e with
      | none => exact ⟨_, _, _, by simp; exact ⟨rfl, rfl⟩⟩
      | some e =>
        cases e with
        | fundamental msg => exact ⟨_, _, _, by simp; exact ⟨rfl, rfl⟩⟩
        | numError fn num err =>
          cases err with
          | ErrSyntax => exact ⟨_, _, _, rfl⟩
          | ErrRange => exact ⟨_, _, _, by simp; exact ⟨rfl, rfl⟩⟩
    | true =>
      cases e with
      | none => exact ⟨_, _, _, by simp; exact ⟨rfl, rfl⟩⟩
      | some e =>
        cases e with
        | fundamental msg => exact ⟨_, _, _, by simp; exact ⟨rfl, rfl⟩⟩
        | numError fn num err =>
          cases err with
          | ErrSyntax => exact ⟨_, _, _, rfl⟩
          | ErrRange => exact ⟨_, _, _, by simp; exact ⟨rfl, rfl⟩⟩
  · rw [h1]
    cases neg with
    | false =>
      simp only [Bool.false_eq_true, if_false] at h2
      have h2' : 9223372036854775808 ≤ literalValue body := by omega
      exact ⟨_, _, _, by simp [h2']; exact ⟨rfl, rfl⟩⟩
    | true =>
      simp only [if_true] at h2
      have h2' : 9223372036854775808 < literalValue body := by omega
      exact ⟨_, _, _, by simp [h2']; exact ⟨rfl, rfl⟩⟩


theorem Atoi_error (s0 body : GoString) (signed neg : Bool)
    (hsp : SignSplit s0 signed neg body)
    (h : (body = [] ∨ ¬ ∀ b ∈ body, IsDigitByte b) ∨
      if neg = true then 2 ^ 63 < literalValue body else 2 ^ 63 ≤ literalValue body) :
    ∃ r e, Atoi s0 = (r, some (GoError.numError (str "Atoi") s0 e)) := by
  have hlen := signSplit_length s0 body signed neg hsp
  by_cases hfast : 0 < s0.length ∧ s0.length < 19
  · rw [Atoi_fast s0 body signed neg hsp hfast.1 hfast.2]
    by_cases hne : body = []
    · have hsg : signed = true := by
        rcases hsp with ⟨-, h1, -⟩ | ⟨-, h1, -⟩ | ⟨h1, -⟩
        · exact h1
        · exact h1
        · subst h1
          subst hne
          simp at hfast
      rw [if_pos ⟨hsg, by simp [hne]⟩]
      exact ⟨_, _, rfl⟩
    · have hbl : 0 < body.length := List.length_pos.mpr hne
      rw [if_neg (by omega)]
      by_cases hd : ∀ b ∈ body, IsDigitByte b
      · exfalso
        have hV := literalValue_lt_of_short body hd (by omega)
        rcases h with (h | h) | h
        · exact hne h
        · exact h hd
        · cases neg <;> simp at h <;> omega
      · rw [atoiLoop_nondigit body 0 hd]
        exact ⟨_, _, rfl⟩
  · by_cases hs0 : s0 = []
    · subst hs0
      exact ⟨_, _, rfl⟩
    · obtain ⟨r, fn, e, hp⟩ := ParseInt_error s0 body signed neg hsp hs0 h
      exact Atoi_slow_of_error s0 hfast r fn e hp

theorem not_digit_sign (ds : GoString) (c : UInt8) (hc : c = 43 ∨ c = 45)
    (hd : ∀ b ∈ c :: ds, IsDigitByte b) : False := by
  have := hd c (List.mem_cons_self _ _)
  unfold IsDigitByte at this
  rcases hc with rfl | rfl
  · exact absurd this (by decide)
  · exact absurd this (by decide)

theorem isIntLiteral_split (s0 body : GoString) (signed neg : Bool)
    (hsp : SignSplit s0 signed neg body) (n : Int) :
    IsIntLiteral s0 n ↔ body ≠ [] ∧ (∀ b ∈ body, IsDigitByte b) ∧
      n = if neg = true then -(literalValue body : Int) else literalValue body := by
  constructor
  · rintro ⟨ds, hne, hd, h⟩
    rcases hsp with ⟨rfl, -, rfl⟩ | ⟨rfl, -, rfl⟩ | ⟨rfl, -, rfl, h1, h2⟩
    · rcases h with ⟨e, -⟩ | ⟨e, hn⟩ | ⟨e, -⟩
      · subst e
        exact absurd hd (fun hd => not_digit_sign _ 43 (Or.inl rfl) hd)
      · injection e with _ e
        subst e
        exact ⟨hne, hd, by simpa using hn⟩
      · injection e with e _
        exact absurd e (by decide)
    · rcases h with ⟨e, -⟩ | ⟨e, -⟩ | ⟨e, hn⟩
      · subst e
        exact absurd hd (fun hd => not_digit_sign _ 45 (Or.inr rfl) hd)
      · injection e with e _
        exact absurd e (by decide)
      · injection e with _ e
        subst e
        exact ⟨hne, hd, by simpa using hn⟩
    · rcases h with ⟨e, hn⟩ | ⟨e, -⟩ | ⟨e, -⟩
      · subst e
        exact ⟨hne, hd, by simpa using hn⟩
      · subst e
        simp at h1
      · subst e
        simp at h2
  · rintro ⟨hne, hd, hn⟩
    refine ⟨body, hne, hd, ?_⟩
    rcases hsp with ⟨rfl, -, rfl⟩ | ⟨rfl, -, rfl⟩ | ⟨rfl, -, rfl, -, -⟩
    · exact Or.inr (Or.inl ⟨rfl, by simpa using hn⟩)
    · exact Or.inr (Or.inr ⟨rfl, by simpa using hn⟩)
    · exact Or.inl ⟨rfl, by simpa using hn⟩

theorem Atoi_of_literal (s : GoString) (n : Int) (hl : IsIntLiteral s n)
    (h1 : -(2 : Int) ^ 63 ≤ n) (h2 : n < 2 ^ 63) : Atoi s = (n, none) := by
  obtain ⟨signed, neg, body, hsp⟩ := signSplit_exists s
  obtain ⟨hne, hd, hn⟩ := (isIntLiteral_split s body signed neg hsp n).mp hl
  rw [Atoi_ok s body signed neg hsp hne hd, hn]
  cases neg
  · simp only [Bool.false_eq_true, if_false] at hn ⊢
    omega
  · simp only [if_true] at hn ⊢
    omega

theorem Atoi_of_not_literal (s : GoString)
    (h : ¬ ∃ n, IsIntLiteral s n ∧ -(2 : Int) ^ 63 ≤ n ∧ n < 2 ^ 63) :
    ∃ r e, Atoi s = (r, some (GoError.numError (str "Atoi") s e)) := by
  obtain ⟨signed, neg, body, hsp⟩ := signSplit_exists s
  apply Atoi_error s body signed neg hsp
  by_cases hb : body = [] ∨ ¬ ∀ b ∈ body, IsDigitByte b
  · exact Or.inl hb
  · right
    have hne : body ≠ [] := fun e => hb (Or.inl e)
    have hd : ∀ b ∈ body, IsDigitByte b := by
      by_contra hd
      exact hb (Or.inr hd)
    have hl := (isIntLiteral_split s body signed neg hsp
      (if neg = true then -(literalValue body : Int) else literalValue body)).mpr ⟨hne, hd, rfl⟩
    have hout : ¬ (-(2 : Int) ^ 63 ≤ (if neg = true then -(literalValue body : Int)
        else literalValue body) ∧
        (if neg = true then -(literalValue body : Int) else (literalValue body : Int)) < 2 ^ 63) :=
      fun hr => h ⟨_, hl, hr⟩
    cases neg
    · simp only [Bool.false_eq_true, if_false] at hout ⊢
      omega
    · simp only [if_true] at hout ⊢
      omega

/-- C10: for a stored string `s`, `GetAsInt` returns `(n, nil)` when `s` is an
optionally signed non-empty sequence of decimal digits denoting an integer `n`
within the range of the platform int, and returns a non-nil parse error (a
`*strconv.NumError` of `Atoi` for `s`) for every other string. -/
theorem getAsInt_string (env : Env) (c : Config) (sec key s : GoString)
    (hg : Get c sec key = Except.ok (Value.string s)) :
    (∀ n, IsIntLiteral s n → -(2 : Int) ^ 63 ≤ n → n < 2 ^ 63 →
      GetAsInt env c sec key = Except.ok (n, none)) ∧
    ((¬ ∃ n, IsIntLiteral s n ∧ -(2 : Int) ^ 63 ≤ n ∧ n < 2 ^ 63) →
      ∃ r e, GetAsInt env c sec key =
        Except.ok (r, some (GoError.numError (str "Atoi") s e))) := by
  constructor
  · intro n hl h1 h2
    simp only [GetAsInt, hg, Atoi_of_literal s n hl h1 h2]
  · intro h
    obtain ⟨r, e, he⟩ := Atoi_of_not_literal s h
    exact ⟨r, e, by simp only [GetAsInt, hg, he]⟩

/-- C10 on `literalStore`: the string "-42" is read as -42, and the string
"12a", which is no integer literal, gives a parse error. -/
theorem getAsInt_string_witness :
    (IsIntLiteral (str "-42") (-42) ∧
      GetAsInt plainEnv literalStore (str "limits") (str "offset") = Except.ok (-42, none)) ∧
    ((¬ ∃ n, IsIntLiteral (str "12a") n ∧ -(2 : Int) ^ 63 ≤ n ∧ n < 2 ^ 63) ∧
      ∃ r e, GetAsInt plainEnv literalStore (str "limits") (str "width") =
        Except.ok (r, some (GoError.numError (str "Atoi") (str "12a") e))) := by
  have hl : IsIntLiteral (str "-42") (-42) :=
    ⟨str "42", by decide, by unfold IsDigitByte; decide, Or.inr (Or.inr ⟨rfl, rfl⟩)⟩
  have hn : ¬ ∃ n, IsIntLiteral (str "12a") n ∧ -(2 : Int) ^ 63 ≤ n ∧ n < 2 ^ 63 := by
    rintro ⟨n, h, -⟩
    have hsp : SignSplit (str "12a") false false (str "12a") :=
      Or.inr (Or.inr ⟨rfl, rfl, rfl, by decide, by decide⟩)
    obtain ⟨-, hd, -⟩ := (isIntLiteral_split _ _ _ _ hsp n).mp h
    have h97 := hd 97 (by decide)
    unfold IsDigitByte at h97
    exact absurd h97 (by decide)
  exact ⟨⟨hl, (getAsInt_string plainEnv literalStore (str "limits") (str "offset") (str "-42")
      rfl).1 (-42) hl (by norm_num) (by norm_num)⟩,
    hn, (getAsInt_string plainEnv literalStore (str "limits") (str "width") (str "12a")
      rfl).2 hn⟩

/-! ## Frame and round trip of SetValue -/

theorem get_eq_of_index (c c' : Config) (sec sec' key : GoString)
    (h : index c'.m sec' = index c.m sec) : Get c' sec' key = Get c sec key := by
  simp only [Get, h]

theorem index_assign_other (kvs : Entries) (s s' : GoString) (e : Value) (h : s' ≠ s) :
    index (some (assign s e kvs)) s' = index (some kvs) s' := by
  simp only [index, lookup_assign_other s s' e kvs h]

theorem index_assign_same (kvs : Entries) (s : GoString) (e : Value) :
    index (some (assign s e kvs)) s = e := by
  simp only [index, lookup_assign_same]

theorem setValue_of_absent (c : Config) (kvs : Entries) (sec key : GoString) (v : Value)
    (hm : c.m = some kvs) (hi : index c.m sec = Value.nil) :
    SetValue c sec key v =
      Except.ok { m := some (assign sec (Value.map (some (assign key v []))) kvs) } := by
  rw [hm] at hi
  simp only [SetValue, hm, hi]

theorem setValue_of_mapping (c : Config) (kvs entries : Entries) (sec key : GoString) (v : Value)
    (hm : c.m = some kvs) (hi : index c.m sec = Value.map (some entries)) :
    SetValue c sec key v =
      Except.ok { m := some (assign sec (Value.map (some (assign key v entries))) kvs) } := by
  rw [hm] at hi
  simp only [SetValue, hm, hi, Option.map]

theorem index_of_sections (c : Config) (kvs : Entries) (sec : GoString) (hm : c.m = some kvs)
    (hs : c.SectionsAreMappings) :
    index c.m sec = Value.nil ∧ lookup sec kvs = none ∨
      ∃ entries, index c.m sec = Value.map (some entries) := by
  cases hl : lookup sec kvs with
  | none => exact Or.inl ⟨by simp [index, hm, hl], rfl⟩
  | some e =>
    have he := hs kvs sec e hm hl
    cases e with
    | map m =>
      cases m with
      | none => simp [Value.IsKeyMapping] at he
      | some entries => exact Or.inr ⟨entries, by simp [index, hm, hl]⟩
    | _ => simp [Value.IsKeyMapping] at he

theorem setValue_ok_index (c c' : Config) (sec key : GoString) (v : Value)
    (h : SetValue c sec key v = Except.ok c') :
    ∃ kvs entries, c'.m = some kvs ∧ index c'.m sec = Value.map (some entries) ∧
      index (some entries) key = v := by
  cases hm : c.m with
  | none => simp [SetValue, index, hm] at h
  | some kvs =>
    cases hi : index c.m sec with
    | nil =>
      rw [setValue_of_absent c kvs sec key v hm hi] at h
      injection h with h
      subst h
      exact ⟨_, _, rfl, index_assign_same _ _ _, index_assign_same _ _ _⟩
    | map m =>
      cases m with
      | none => simp [SetValue, hi] at h
      | some entries =>
        rw [setValue_of_mapping c kvs entries sec key v hm hi] at h
        injection h with h
        subst h
        exact ⟨_, _, rfl, index_assign_same _ _ _, index_assign_same _ _ _⟩
    | _ => simp [SetValue, hi] at h

theorem get_of_index (c : Config) (sec key : GoString) (entries : Entries)
    (hi : index c.m sec = Value.map (some entries)) :
    Get c sec key = Except.ok (index (some entries) key) := by
  simp only [Get, hi]


theorem digitByte_toNat (d : Nat) (h : d < 10) : (digitByte d).toNat = 48 + d := by
  unfold digitByte
  show (48 + d) % 256 = 48 + d
  omega

theorem decDigits_lt (m d : Nat) (hd : d ∈ decDigits m) : d < 10 := by
  unfold decDigits at hd
  split at hd
  · simp at hd; omega
  · exact Nat.digits_lt_base (by norm_num) (List.mem_reverse.mp hd)

theorem decDigits_ne_nil (m : Nat) : decDigits m ≠ [] := by
  unfold decDigits
  split
  · simp
  · rename_i hm
    simpa [Nat.digits_eq_nil_iff_eq_zero] using hm

theorem decimalValue_decDigits (m : Nat) : decimalValue (decDigits m) = m := by
  unfold decDigits decimalValue
  split
  · rename_i hm; simp [hm]
  · rw [List.foldl_reverse]
    have := Nat.ofDigits_digits 10 m
    rw [Nat.ofDigits_eq_foldr] at this
    simpa [Nat.mul_comm, Nat.add_comm] using this

theorem literalFrom_map_digitByte (ds : List Nat) (hd : ∀ d ∈ ds, d < 10) : ∀ n : Nat,
    literalFrom n (ds.map digitByte) = ds.foldl (fun acc d => acc * 10 + d) n := by
  induction ds with
  | nil => intro n; rfl
  | cons d rest ih =>
    intro n
    have h10 := hd d (List.mem_cons_self _ _)
    rw [List.map_cons, literalFrom_cons, digitByte_toNat d h10, List.foldl_cons,
      ih (fun x hx => hd x (List.mem_cons_of_mem _ hx))]
    congr 1
    omega

theorem FormatInt_isLiteral (n : Int) (h1 : -(2 : Int) ^ 63 ≤ n) (h2 : n < 2 ^ 63) :
    IsIntLiteral (FormatInt n) n := by
  rw [FormatInt_eq n h1 h2]
  have hlt := decDigits_lt n.natAbs
  have hval : literalValue ((decDigits n.natAbs).map digitByte) = n.natAbs := by
    unfold literalValue
    rw [literalFrom_map_digitByte _ hlt 0]
    exact decimalValue_decDigits _
  refine ⟨(decDigits n.natAbs).map digitByte, ?_, ?_, ?_⟩
  · simpa using decDigits_ne_nil n.natAbs
  · intro b hb
    obtain ⟨d, hd, rfl⟩ := List.mem_map.mp hb
    unfold IsDigitByte
    rw [digitByte_toNat d (hlt d hd)]
    have := hlt d hd
    omega
  · rw [hval]
    by_cases hn : n < 0
    · exact Or.inr (Or.inr ⟨by simp [hn], by omega⟩)
    · exact Or.inl ⟨by simp [hn], by omega⟩

/-- C11: for a stored boolean `b`, `GetAsInt` returns `(1, nil)` when `b` is
true and `(0, nil)` when `b` is false. -/
theorem getAsInt_bool (env : Env) (c : Config) (sec key : GoString) (b : Bool)
    (hg : Get c sec key = Except.ok (Value.bool b)) :
    (b = true → GetAsInt env c sec key = Except.ok (1, none)) ∧
    (b = false → GetAsInt env c sec key = Except.ok (0, none)) := by
  constructor <;> intro hb <;> subst hb <;> simp only [GetAsInt, hg] <;> rfl

/-- C11 on `flagStore`: the key "on" holds true and the key "off" holds false. -/
theorem getAsInt_bool_witness :
    GetAsInt plainEnv flagStore (str "flags") (str "on") = Except.ok (1, none) ∧
    GetAsInt plainEnv flagStore (str "flags") (str "off") = Except.ok (0, none) :=
  ⟨(getAsInt_bool plainEnv flagStore (str "flags") (str "on") true rfl).1 rfl,
    (getAsInt_bool plainEnv flagStore (str "flags") (str "off") false rfl).2 rfl⟩

/-- C16: on a store whose mapping is initialised and whose section entries are
key-mappings, `SetValue(s, k, v)` succeeds and `Get(s', k')` returns the same
result after it as before it, for every coordinate `(s', k')` other than
`(s, k)`: other keys of the section `s`, also when `SetValue` has just created
it, and keys of other sections. -/
theorem setValue_frame (c : Config) (kvs : Entries) (sec key : GoString) (v : Value)
    (sec' key' : GoString) (hm : c.m = some kvs) (hs : c.SectionsAreMappings)
    (hne : ¬ (sec' = sec ∧ key' = key)) :
    ∃ c', SetValue c sec key v = Except.ok c' ∧ Get c' sec' key' = Get c sec' key' := by
  rcases index_of_sections c kvs sec hm hs with ⟨hi, hl⟩ | ⟨entries, hi⟩
  · refine ⟨_, setValue_of_absent c kvs sec key v hm hi, ?_⟩
    by_cases hsec : sec' = sec
    · subst hsec
      have hk : key ≠ key' := fun h => hne ⟨rfl, h.symm⟩
      simp [Get, index, lookup_assign_same, hm, hl, assign, lookup, hk]
    · apply get_eq_of_index
      rw [hm]
      exact index_assign_other kvs sec sec' _ hsec
  · refine ⟨_, setValue_of_mapping c kvs entries sec key v hm hi, ?_⟩
    by_cases hsec : sec' = sec
    · subst hsec
      have hk : key' ≠ key := fun h => hne ⟨rfl, h⟩
      simp only [Get, hi, index_assign_same]
      simp only [index, lookup_assign_other key key' v entries hk]
    · apply get_eq_of_index
      rw [hm]
      exact index_assign_other kvs sec sec' _ hsec

/-- C16 on `serverStore`: writing "server"/"port" leaves "server"/"name". -/
theorem setValue_frame_witness :
    ∃ c', SetValue serverStore (str "server") (str "port") (Value.int 8080) = Except.ok c' ∧
      Get c' (str "server") (str "name") = Get serverStore (str "server") (str "name") :=
  setValue_frame serverStore _ (str "server") (str "port") (Value.int 8080) (str "server")
    (str "name") rfl serverStore_sections (by decide)

/-- C17: when the platform int `n` is stored with `SetValue` at a section and
key, `GetAsString` returns a string `s` there, and after `s` is stored with
`SetValue` at the same section and key, `GetAsInt` returns `(n, nil)`. -/
theorem int_string_roundtrip (env : Env) (c c1 : Config) (sec key : GoString) (n : Int)
    (h1 : -(2 : Int) ^ 63 ≤ n) (h2 : n < 2 ^ 63)
    (hset : SetValue c sec key (Value.int n) = Except.ok c1) :
    ∃ s c2, GetAsString env c1 sec key = Except.ok s ∧
      SetValue c1 sec key (Value.string s) = Except.ok c2 ∧
      GetAsInt env c2 sec key = Except.ok (n, none) := by
  obtain ⟨kvs, entries, hm, hi, hk⟩ := setValue_ok_index c c1 sec key _ hset
  have hg : Get c1 sec key = Except.ok (Value.int n) := by
    rw [get_of_index c1 sec key entries hi, hk]
  have hset2 := setValue_of_mapping c1 kvs entries sec key (Value.string (Itoa n)) hm hi
  obtain ⟨kvs2, entries2, hm2, hi2, hk2⟩ := setValue_ok_index c1 _ sec key _ hset2
  refine ⟨Itoa n, _, by simp only [GetAsString, hg], hset2, ?_⟩
  have hg2 := get_of_index _ sec key entries2 hi2
  rw [hk2] at hg2
  have hl : IsIntLiteral (Itoa n) n := by
    rw [Itoa, wrapInt64_of_range n h1 h2]
    exact FormatInt_isLiteral n h1 h2
  simp only [GetAsInt, hg2, Atoi_of_literal (Itoa n) n hl h1 h2]

/-- C17 at the int -42, stored under "limits"/"offset" of `serverStore`. -/
theorem int_string_roundtrip_witness :
    SetValue serverStore (str "limits") (str "offset") (Value.int (-42)) =
      Except.ok limitsStore ∧
    ∃ s c2, GetAsString plainEnv limitsStore (str "limits") (str "offset") = Except.ok s ∧
      SetValue limitsStore (str "limits") (str "offset") (Value.string s) = Except.ok c2 ∧
      GetAsInt plainEnv c2 (str "limits") (str "offset") = Except.ok (-42, none) :=
  ⟨rfl, int_string_roundtrip plainEnv serverStore limitsStore (str "limits") (str "offset")
    (-42) (by norm_num) (by norm_num) rfl⟩

/-! ## JSON numbers as 64-bit floats -/

theorem log2Loop_spec (rounds : Nat) : ∀ a : Nat, 0 < a → a < 2 ^ (rounds + 1) →
    2 ^ log2Loop rounds a ≤ a ∧ a < 2 ^ (log2Loop rounds a + 1) := by
  induction rounds with
  | zero =>
    intro a h0 h
    simp only [log2Loop]
    omega
  | succ r ih =>
    intro a h0 h
    by_cases h2 : 2 ≤ a
    · simp only [log2Loop, h2, if_true]
      have hlt : a / 2 < 2 ^ (r + 1) := by
        rw [Nat.div_lt_iff_lt_mul (by norm_num)]
        calc a < 2 ^ (r + 1 + 1) := h
          _ = 2 ^ (r + 1) * 2 := by ring
      obtain ⟨i1, i2⟩ := ih (a / 2) (by omega) hlt
      have e1 : 2 ^ (log2Loop r (a / 2) + 1) = 2 ^ log2Loop r (a / 2) * 2 := by ring
      have e2 : 2 ^ (log2Loop r (a / 2) + 1 + 1) = 2 ^ (log2Loop r (a / 2) + 1) * 2 := by ring
      constructor
      · rw [e1]; omega
      · rw [e2]; omega
    · simp only [log2Loop, h2, if_false]
      omega

theorem floorLog2_spec (a : Nat) (h0 : 0 < a) (h : a ≤ 2 ^ 53) :
    2 ^ floorLog2 a ≤ a ∧ a < 2 ^ (floorLog2 a + 1) ∧ floorLog2 a ≤ 53 := by
  obtain ⟨h1, h2⟩ := log2Loop_spec 64 a h0 (lt_of_le_of_lt h (by norm_num))
  refine ⟨h1, h2, ?_⟩
  by_contra hk
  have : 2 ^ 54 ≤ 2 ^ floorLog2 a := Nat.pow_le_pow_right (by norm_num) (by omega)
  have : (2 : Nat) ^ 53 < 2 ^ 54 := by norm_num
  unfold floorLog2 at *
  omega

theorem float64_fields (a k : Nat) (h1 : 2 ^ k ≤ a) (h2 : a < 2 ^ (k + 1)) (hk : k ≤ 53)
    (ha : a ≤ 2 ^ 53) :
    a * 2 ^ 52 / 2 ^ k - 2 ^ 52 < 2 ^ 52 ∧
    truncMagnitude 52 1023 (1023 + k) (a * 2 ^ 52 / 2 ^ k - 2 ^ 52) = a := by
  have he : ¬ 1023 + k = 0 := by omega
  by_cases h53 : k = 53
  · subst h53
    have ha' : a = 2 ^ 53 := le_antisymm ha h1
    subst ha'
    simp only [truncMagnitude, he, if_false]
    norm_num
  · have hk' : k ≤ 52 := by omega
    have hP : 0 < 2 ^ k := Nat.pow_pos (by norm_num)
    have hQ : 0 < 2 ^ (52 - k) := Nat.pow_pos (by norm_num)
    have hPQ : 2 ^ k * 2 ^ (52 - k) = 2 ^ 52 := by
      rw [← pow_add]
      congr 1
      omega
    have e : a * 2 ^ 52 / 2 ^ k = a * 2 ^ (52 - k) := by
      rw [← hPQ, ← Nat.mul_assoc, Nat.mul_comm a, Nat.mul_assoc, Nat.mul_div_cancel_left _ hP]
    have hge : 2 ^ 52 ≤ a * 2 ^ (52 - k) := by
      rw [← hPQ]
      exact Nat.mul_le_mul_right _ h1
    have hlt : a * 2 ^ (52 - k) < 2 * 2 ^ 52 := by
      rw [← hPQ, ← Nat.mul_assoc]
      have : 2 * 2 ^ k = 2 ^ (k + 1) := by ring
      rw [this]
      exact Nat.mul_lt_mul_of_pos_right h2 hQ
    rw [e]
    have hm : 2 ^ 52 + (a * 2 ^ (52 - k) - 2 ^ 52) = a * 2 ^ (52 - k) := by omega
    refine ⟨by omega, ?_⟩
    simp only [truncMagnitude, he, if_false, hm]
    by_cases h52 : k = 52
    · subst h52
      simp
    · have hc : ¬ 1023 + 52 ≤ 1023 + k := by omega
      have hx : 1023 + 52 - (1023 + k) = 52 - k := by omega
      rw [if_neg hc, hx]
      exact Nat.mul_div_cancel _ hQ

theorem float64ToInt_float64OfInt (env : Env) (n : Int) (h1 : -(2 : Int) ^ 53 ≤ n)
    (h2 : n ≤ 2 ^ 53) : float64ToInt env (float64OfInt n) = n := by
  by_cases h0 : n = 0
  · subst h0
    have ht : truncMagnitude 52 1023 0 0 = 0 := by
      simp only [truncMagnitude, if_true]
      split
      · exact Nat.zero_mul _
      · exact Nat.zero_div _
    simp only [float64OfInt, if_true, float64ToInt, Nat.zero_div, Nat.zero_mod, ht]
    norm_num
  · have ha0 : 0 < n.natAbs := by omega
    have ha : n.natAbs ≤ 2 ^ 53 := by omega
    obtain ⟨l1, l2, l3⟩ := floorLog2_spec n.natAbs ha0 ha
    obtain ⟨f1, f2⟩ := float64_fields n.natAbs (floorLog2 n.natAbs) l1 l2 l3 ha
    simp only [float64OfInt, h0, if_false]
    generalize hf : n.natAbs * 2 ^ 52 / 2 ^ floorLog2 n.natAbs - 2 ^ 52 = frac at f1 f2
    generalize hk : floorLog2 n.natAbs = k at l3 f2
    generalize hs : (if n < 0 then 1 else 0 : Nat) = sign
    have hsign : sign = 0 ∨ sign = 1 := by
      rw [← hs]; split <;> simp
    have d1 : (sign * 2 ^ 63 + (1023 + k) * 2 ^ 52 + frac) / 2 ^ 63 % 2 = sign := by omega
    have d2 : (sign * 2 ^ 63 + (1023 + k) * 2 ^ 52 + frac) / 2 ^ 52 % 2048 = 1023 + k := by omega
    have d3 : (sign * 2 ^ 63 + (1023 + k) * 2 ^ 52 + frac) % 2 ^ 52 = frac := by omega
    have hne : ¬ 1023 + k = 2047 := by omega
    simp only [float64ToInt, d1, d2, d3, hne, if_false, f2]
    by_cases hn : n < 0
    · have : sign = 1 := by rw [← hs]; simp [hn]
      subst this
      have hr : -(2 : Int) ^ 63 ≤ -(n.natAbs : Int) ∧ -(n.natAbs : Int) < 2 ^ 63 := by omega
      simp only [if_true, hr, and_self]
      omega
    · have : sign = 0 := by rw [← hs]; simp [hn]
      subst this
      have hr : -(2 : Int) ^ 63 ≤ (n.natAbs : Int) ∧ (n.natAbs : Int) < 2 ^ 63 := by omega
      simp only [zero_ne_one, if_false, hr, and_self, if_true]
      omega

/-! ## Loading a store -/

theorem lookup_assign (k k' : GoString) (v : Value) (kvs : Entries) :
    lookup k' (assign k v kvs) = if k' = k then some v else lookup k' kvs := by
  by_cases h : k' = k
  · subst h
    simp [lookup_assign_same]
  · simp [h, lookup_assign_other k k' v kvs h]

theorem decodeInterface_object (env : Env) (j : Json) (saved : Option Cause) (h : j.IsObject) :
    (decodeInterface env j saved).1.IsKeyMapping := by
  cases j <;> simp only [Json.IsObject] at h
  simp only [decodeInterface, Value.IsKeyMapping]

theorem decodeObject_mappings (env : Env) (members : List (GoString × Json)) :
    ∀ (acc : Entries) (saved : Option Cause),
    (∀ k j, (k, j) ∈ members → j.IsObject) →
    (∀ s e, lookup s acc = some e → e.IsKeyMapping) →
    ∀ s e, lookup s (decodeObject env members acc saved).1 = some e → e.IsKeyMapping := by
  induction members with
  | nil =>
    intro acc saved _ hacc s e h
    exact hacc s e h
  | cons hd tl ih =>
    obtain ⟨k, j⟩ := hd
    intro acc saved hmem hacc s e h
    simp only [decodeObject] at h
    refine ih _ _ (fun k' j' h' => hmem k' j' (List.mem_cons_of_mem _ h')) ?_ s e h
    intro s' e' h'
    rw [lookup_assign] at h'
    split at h'
    · injection h' with h'
      subst h'
      exact decodeInterface_object env j saved (hmem k j (List.mem_cons_self _ _))
    · exact hacc s' e' h'

theorem setValue_preserves (c : Config) (kvs : Entries) (sec key : GoString) (v : Value)
    (hm : c.m = some kvs) (hs : c.SectionsAreMappings) :
    ∃ c' kvs', SetValue c sec key v = Except.ok c' ∧ c'.m = some kvs' ∧
      c'.SectionsAreMappings := by
  rcases index_of_sections c kvs sec hm hs with ⟨hi, -⟩ | ⟨entries, hi⟩
  · refine ⟨_, _, setValue_of_absent c kvs sec key v hm hi, rfl, ?_⟩
    intro kvs' s e h1 h2
    simp only [Option.some.injEq] at h1
    subst h1
    rw [lookup_assign] at h2
    split at h2
    · injection h2 with h2
      subst h2
      trivial
    · exact hs kvs s e hm h2
  · refine ⟨_, _, setValue_of_mapping c kvs entries sec key v hm hi, rfl, ?_⟩
    intro kvs' s e h1 h2
    simp only [Option.some.injEq] at h1
    subst h1
    rw [lookup_assign] at h2
    split at h2
    · injection h2 with h2
      subst h2
      trivial
    · exact hs kvs s e hm h2

theorem runSetValues_preserves (writes : List (GoString × GoString × Value)) :
    ∀ (c : Config) (kvs : Entries), c.m = some kvs → c.SectionsAreMappings →
    ∃ c' kvs', runSetValues c writes = Except.ok c' ∧ c'.m = some kvs' ∧
      c'.SectionsAreMappings := by
  induction writes with
  | nil => intro c kvs hm hs; exact ⟨c, kvs, rfl, hm, hs⟩
  | cons w rest ih =>
    obtain ⟨sec, key, v⟩ := w
    intro c kvs hm hs
    obtain ⟨c1, kvs1, h1, hm1, hs1⟩ := setValue_preserves c kvs sec key v hm hs
    obtain ⟨c2, kvs2, h2, hm2, hs2⟩ := ih c1 kvs1 hm1 hs1
    exact ⟨c2, kvs2, by simp only [runSetValues, h1, h2], hm2, hs2⟩

theorem readConfig_objects (env : Env) (fs : FileSystem) (path : GoString) (root : Json)
    (c : Config) (hfs : fs path = Except.ok (Document.value root))
    (hroot : root.IsObjectOfObjects) (hok : ReadConfig env fs path = (c, none)) :
    ∃ kvs, c.m = some kvs ∧ c.SectionsAreMappings := by
  cases root <;> simp only [Json.IsObjectOfObjects] at hroot
  rename_i members
  simp only [ReadConfig, hfs, Decode] at hok
  split at hok
  · cases hok
  · injection hok with hc _
    subst hc
    refine ⟨_, rfl, ?_⟩
    intro kvs s e h1 h2
    simp only [Option.some.injEq] at h1
    subst h1
    exact decodeObject_mappings env members [] none hroot (fun _ _ h => by simp [lookup] at h)
      s e h2


theorem readConfig_exampleDoc (env : Env) (fs : FileSystem) (path : GoString)
    (hfs : fs path = Except.ok (Document.value exampleDoc))
    (hport : env.ParseFloat (str "8080") = (float64OfInt 8080, none)) :
    ReadConfig env fs path =
      ({ m := some [(str "server", Value.map (some [(str "port",
          Value.float64 (float64OfInt 8080)), (str "debug", Value.bool true),
          (str "name", Value.string (str "api"))]))] }, none) := by
  simp only [ReadConfig, hfs, Decode, exampleDoc, decodeObject, decodeInterface, hport]
  rfl

/-- C12: for the store loaded from the document
`{"server": {"port": 8080, "debug": true, "name": "api"}}`, with the number
decoded as the 64-bit float 8080 and "api" rejected by `strconv.ParseFloat`,
the load succeeds, `GetAsInt("server","port")` returns `(8080, nil)`,
`GetAsString("server","debug")` returns "true", `GetAsString("server","name")`
returns "api" and `GetAsFloat64("server","name")` returns 0 with a non-nil
error. More generally, where a store holds at a section and key the 64-bit
float of an integer `n` of magnitude at most 2^53, as JSON decoding stores the
number `n`, `GetAsInt` returns `(n, nil)`. -/
theorem load_example_document (env : Env) (fs : FileSystem) (path : GoString)
    (hfs : fs path = Except.ok (Document.value exampleDoc))
    (hport : env.ParseFloat (str "8080") = (float64OfInt 8080, none))
    (hname : ∃ e, env.ParseFloat (str "api") = (0, some e)) :
    (ReadConfig env fs path).2 = none ∧
    GetAsInt env (ReadConfig env fs path).1 (str "server") (str "port") =
      Except.ok (8080, none) ∧
    GetAsString env (ReadConfig env fs path).1 (str "server") (str "debug") =
      Except.ok (str "true") ∧
    GetAsString env (ReadConfig env fs path).1 (str "server") (str "name") =
      Except.ok (str "api") ∧
    (∃ e, GetAsFloat64 env (ReadConfig env fs path).1 (str "server") (str "name") =
      Except.ok (0, some e)) ∧
    ∀ (c : Config) (sec key : GoString) (n : Int), -(2 : Int) ^ 53 ≤ n → n ≤ 2 ^ 53 →
      Get c sec key = Except.ok (Value.float64 (float64OfInt n)) →
      GetAsInt env c sec key = Except.ok (n, none) := by
  rw [readConfig_exampleDoc env fs path hfs hport]
  obtain ⟨e, he⟩ := hname
  refine ⟨rfl, ?_, rfl, rfl, ⟨e, ?_⟩, ?_⟩
  · have hg : Get { m := some [(str "server", Value.map (some [(str "port",
        Value.float64 (float64OfInt 8080)), (str "debug", Value.bool true),
        (str "name", Value.string (str "api"))]))] } (str "server") (str "port") =
        Except.ok (Value.float64 (float64OfInt 8080)) := rfl
    simp only [GetAsInt, hg, float64ToInt_float64OfInt env 8080 (by norm_num) (by norm_num)]
  · have hg : Get { m := some [(str "server", Value.map (some [(str "port",
        Value.float64 (float64OfInt 8080)), (str "debug", Value.bool true),
        (str "name", Value.string (str "api"))]))] } (str "server") (str "name") =
        Except.ok (Value.string (str "api")) := rfl
    simp only [GetAsFloat64, hg, he]
  · intro c sec key n h1 h2 hg
    simp only [GetAsInt, hg, float64ToInt_float64OfInt env n h1 h2]

/-- C12 with the file "config.json" of `diskFs` and the environment
`digitsEnv`. -/
theorem load_example_document_witness :
    (ReadConfig digitsEnv diskFs (str "config.json")).2 = none ∧
    GetAsInt digitsEnv (ReadConfig digitsEnv diskFs (str "config.json")).1 (str "server")
      (str "port") = Except.ok (8080, none) ∧
    GetAsString digitsEnv (ReadConfig digitsEnv diskFs (str "config.json")).1 (str "server")
      (str "debug") = Except.ok (str "true") ∧
    GetAsString digitsEnv (ReadConfig digitsEnv diskFs (str "config.json")).1 (str "server")
      (str "name") = Except.ok (str "api") ∧
    (∃ e, GetAsFloat64 digitsEnv (ReadConfig digitsEnv diskFs (str "config.json")).1
      (str "server") (str "name") = Except.ok (0, some e)) ∧
    ∀ (c : Config) (sec key : GoString) (n : Int), -(2 : Int) ^ 53 ≤ n → n ≤ 2 ^ 53 →
      Get c sec key = Except.ok (Value.float64 (float64OfInt n)) →
      GetAsInt digitsEnv c sec key = Except.ok (n, none) :=
  load_example_document digitsEnv diskFs (str "config.json") rfl rfl ⟨_, rfl⟩

/-- C14, refuted as stated: `ReadConfig` succeeds on the document `null` and
leaves the mapping nil, so that `SetValue` faults; and it succeeds on the
document `{"server": 5}`, whose section entry is no key-mapping, so that `Get`
and `SetValue` on that section fault. -/
theorem load_success_then_fault :
    (ReadConfig plainEnv diskFs (str "null.json")).2 = none ∧
    (ReadConfig plainEnv diskFs (str "null.json")).1.m = none ∧
    SetValue (ReadConfig plainEnv diskFs (str "null.json")).1 (str "server") (str "port")
      (Value.int 8080) = Except.error Panic.nilMapAssignment ∧
    (ReadConfig digitsEnv diskFs (str "scalar.json")).2 = none ∧
    ¬ (ReadConfig digitsEnv diskFs (str "scalar.json")).1.SectionsAreMappings ∧
    Get (ReadConfig digitsEnv diskFs (str "scalar.json")).1 (str "server") (str "port") =
      Except.error Panic.typeAssertion ∧
    SetValue (ReadConfig digitsEnv diskFs (str "scalar.json")).1 (str "server") (str "port")
      (Value.int 8080) = Except.error Panic.typeAssertion := by
  refine ⟨rfl, rfl, rfl, rfl, ?_, rfl, rfl⟩
  intro h
  exact h [(str "server", Value.float64 (float64OfInt 5))] (str "server")
    (Value.float64 (float64OfInt 5)) rfl rfl

/-- C14, amended: in every store state reached by a successful `ReadConfig` of
a document whose root is a JSON object all of whose members are JSON objects,
followed by any finite sequence of `SetValue` calls, the calls do not fault,
the mapping is non-nil and every section entry is a non-nil key-mapping;
consequently `Get` and `SetValue` do not fault on such a state. -/
theorem invariant_after_load (env : Env) (fs : FileSystem) (path : GoString) (root : Json)
    (c : Config) (writes : List (GoString × GoString × Value))
    (hfs : fs path = Except.ok (Document.value root)) (hroot : root.IsObjectOfObjects)
    (hok : ReadConfig env fs path = (c, none)) :
    ∃ c', runSetValues c writes = Except.ok c' ∧ c'.m ≠ none ∧ c'.SectionsAreMappings ∧
      (∀ sec key, ∃ v, Get c' sec key = Except.ok v) ∧
      (∀ sec key v, ∃ c'', SetValue c' sec key v = Except.ok c'') := by
  obtain ⟨kvs, hm, hs⟩ := readConfig_objects env fs path root c hfs hroot hok
  obtain ⟨c', kvs', hrun, hm', hs'⟩ := runSetValues_preserves writes c kvs hm hs
  refine ⟨c', hrun, by simp [hm'], hs', ?_, ?_⟩
  · intro sec key
    exact get_ok_of_sections c' sec key hs'
  · intro sec key v
    obtain ⟨c'', _, h, _, _⟩ := setValue_preserves c' kvs' sec key v hm' hs'
    exact ⟨c'', h⟩

theorem exampleDoc_objects : exampleDoc.IsObjectOfObjects := by
  intro k j h
  simp only [List.mem_singleton, Prod.mk.injEq] at h
  obtain ⟨-, rfl⟩ := h
  trivial

/-- C14, amended, at the file "config.json" of `diskFs`, followed by a write
to the new section "db" and a write to the section "server". -/
theorem invariant_after_load_witness :
    exampleDoc.IsObjectOfObjects ∧
    ∃ c', runSetValues (ReadConfig digitsEnv diskFs (str "config.json")).1
        [(str "db", str "port", Value.int 5432), (str "server", str "debug", Value.bool false)] =
        Except.ok c' ∧
      c'.m ≠ none ∧ c'.SectionsAreMappings ∧
      (∀ sec key, ∃ v, Get c' sec key = Except.ok v) ∧
      (∀ sec key v, ∃ c'', SetValue c' sec key v = Except.ok c'') :=
  ⟨exampleDoc_objects,
    invariant_after_load digitsEnv diskFs (str "config.json") exampleDoc _ _ rfl
      exampleDoc_objects rfl⟩

/-- C18: on a store whose mapping is nil, for every section and key, `Get`
returns absent without a fault, `GetAsString` returns the empty string, and
`GetAsInt` and `GetAsFloat64` return 0 with a conversion error; each result is
the one an empty store gives. -/
theorem reads_on_nil_mapping (env : Env) (c : Config) (sec key : GoString) (hm : c.m = none) :
    Get c sec key = Except.ok absent ∧
    GetAsString env c sec key = Except.ok [] ∧
    GetAsInt env c sec key = Except.ok (0, some (GoError.fundamental
      (str "convert to int in: " ++ sec ++ str "." ++ key))) ∧
    GetAsFloat64 env c sec key = Except.ok (0, some (GoError.fundamental
      (str "convert to float64 in: " ++ sec ++ str "." ++ key))) ∧
    Get c sec key = Get { m := some [] } sec key ∧
    GetAsString env c sec key = GetAsString env { m := some [] } sec key ∧
    GetAsInt env c sec key = GetAsInt env { m := some [] } sec key ∧
    GetAsFloat64 env c sec key = GetAsFloat64 env { m := some [] } sec key := by
  have hg : Get c sec key = Except.ok Value.nil := by simp only [Get, index, hm]
  have hg' : Get { m := some [] } sec key = Except.ok Value.nil := rfl
  refine ⟨hg, ?_, ?_, ?_, ?_, ?_, ?_, ?_⟩
  · simp only [GetAsString, hg]
  · simp only [GetAsInt, hg]
  · simp only [GetAsFloat64, hg]
  · rw [hg, hg']
  · simp only [GetAsString, hg, hg']
  · simp only [GetAsInt, hg, hg']
  · simp only [GetAsFloat64, hg, hg']

/-- C18 on the store that `ReadConfig` returns, with a "read file" error, for
a file that does not exist. -/
theorem reads_on_nil_mapping_witness :
    (ReadConfig plainEnv diskFs (str "missing.json")).2 =
      some { cause := Cause.pathError (str "open") (str "missing.json")
               (str "no such file or directory"),
             message := str "read file" } ∧
    Get (ReadConfig plainEnv diskFs (str "missing.json")).1 (str "server") (str "port") =
      Except.ok absent ∧
    GetAsString plainEnv (ReadConfig plainEnv diskFs (str "missing.json")).1 (str "server")
      (str "port") = Except.ok [] ∧
    GetAsInt plainEnv (ReadConfig plainEnv diskFs (str "missing.json")).1 (str "server")
      (str "port") = Except.ok (0, some (GoError.fundamental
        (str "convert to int in: " ++ str "server" ++ str "." ++ str "port"))) ∧
    GetAsFloat64 plainEnv (ReadConfig plainEnv diskFs (str "missing.json")).1 (str "server")
      (str "port") = Except.ok (0, some (GoError.fundamental
        (str "convert to float64 in: " ++ str "server" ++ str "." ++ str "port"))) :=
  have h := reads_on_nil_mapping plainEnv (ReadConfig plainEnv diskFs (str "missing.json")).1
    (str "server") (str "port") rfl
  ⟨rfl, h.1, h.2.1, h.2.2.1, h.2.2.2.1⟩

/-- C19: on a store whose mapping is nil, for every section, key and value,
`SetValue` faults on the write into the nil mapping: it neither creates the
mapping nor stores the value. -/
theorem setValue_on_nil_mapping (c : Config) (sec key : GoString) (v : Value)
    (hm : c.m = none) :
    SetValue c sec key v = Except.error Panic.nilMapAssignment ∧
    ∀ c', SetValue c sec key v ≠ Except.ok c' := by
  have hp : SetValue c sec key v = Except.error Panic.nilMapAssignment := by
    simp only [SetValue, index, hm]
  refine ⟨hp, fun c' h => ?_⟩
  rw [hp] at h
  cases h

/-- C19 on the store that `ReadConfig` returns, with a "decode json" error,
for the file "broken.json" of `diskFs`. -/
theorem setValue_on_nil_mapping_witness :
    (ReadConfig plainEnv diskFs (str "broken.json")).1.m = none ∧
    (ReadConfig plainEnv diskFs (str "broken.json")).2 ≠ none ∧
    SetValue (ReadConfig plainEnv diskFs (str "broken.json")).1 (str "server") (str "port")
      (Value.int 8080) = Except.error Panic.nilMapAssignment :=
  ⟨rfl, by decide,
    (setValue_on_nil_mapping (ReadConfig plainEnv diskFs (str "broken.json")).1 (str "server")
      (str "port") (Value.int 8080) rfl).1⟩

end Jsonconfig
